import Mathlib

/-!
# Verification of the dashboard core of `ai-crypto-advisor`

Shallow embedding of `backend/src/controllers/dashboardController.js`:
the token-bucket rate limiter, the retrying price fetcher, the coalescing
price cache, the per-user sticky news store with LRU eviction, the news
personalization scorer, and the per-user daily AI-insight cache.

Conventions:
* JavaScript `Map` objects are embedded as association lists
  (`List (κ × α)`) with JS `Map` semantics: `Map.set` on an existing key
  updates the value in place (keeping insertion order), otherwise appends;
  `Map.delete` removes the entry; iteration order is insertion order.
* Timestamps (`Date.now()`) are integers (milliseconds); fractional token
  counts and scores (JS numbers) are rationals.
* The JavaScript runtime is single threaded: the synchronous part of each
  `async` function runs to completion before any other call's synchronous
  part.  `fetchPrices` and friends are therefore embedded as atomic state
  transitions, and the later settlement of a loader promise is a separate
  transition (`loaderSettle`).  A promise is identified by a numeric id;
  two callers holding the same promise id observe the same resolved value.
-/

/-! ## Association lists with JavaScript `Map` semantics -/

/-- `Map.get`: value stored at the first (and, with unique keys, only)
occurrence of the key. -/
def mget {κ α : Type} [DecidableEq κ] : List (κ × α) → κ → Option α
  | [], _ => none
  | (k, v) :: t, q => if k = q then some v else mget t q

/-- `Map.set`: update in place if the key is present (JS `Map.set` keeps the
original insertion position), otherwise append at the end. -/
def mset {κ α : Type} [DecidableEq κ] : List (κ × α) → κ → α → List (κ × α)
  | [], q, v => [(q, v)]
  | (k, w) :: t, q, v => if k = q then (k, v) :: t else (k, w) :: mset t q v

/-- `Map.delete`: remove the first occurrence of the key. -/
def mdel {κ α : Type} [DecidableEq κ] : List (κ × α) → κ → List (κ × α)
  | [], _ => []
  | (k, w) :: t, q => if k = q then t else (k, w) :: mdel t q

/-- `Map.has`. -/
def mhas {κ α : Type} [DecidableEq κ] (l : List (κ × α)) (q : κ) : Bool :=
  (mget l q).isSome

/-! ## Character-level string operations

The strings handled by the controller are ASCII, where these agree with
the JavaScript `toLowerCase` / `toUpperCase` / `trim` / `split(",")` and
the default (code-unit lexicographic) string comparison. -/

/-- `String.prototype.toLowerCase()` (ASCII). -/
def toLowerStr (s : String) : String := ⟨s.data.map Char.toLower⟩

/-- `String.prototype.toUpperCase()` (ASCII). -/
def toUpperStr (s : String) : String := ⟨s.data.map Char.toUpper⟩

/-- `String.prototype.trim()`: strip leading and trailing whitespace. -/
def trimStr (s : String) : String :=
  ⟨((s.data.dropWhile Char.isWhitespace).reverse.dropWhile Char.isWhitespace).reverse⟩

/-- Code-unit lexicographic comparison, as used by the default
`Array.prototype.sort()` comparator. -/
def charListLe : List Char → List Char → Bool
  | [], _ => true
  | _ :: _, [] => false
  | a :: as, b :: bs => if a = b then charListLe as bs else decide (a < b)

/-- Accumulator-based splitting of a character list at commas. -/
def splitCommaChars (acc : List Char) : List Char → List String
  | [] => [⟨acc.reverse⟩]
  | c :: t =>
    if c = ',' then ⟨acc.reverse⟩ :: splitCommaChars [] t
    else splitCommaChars (c :: acc) t

/-- `String.prototype.split(",")`. -/
def splitOnComma (s : String) : List String := splitCommaChars [] s.data

/-! ## RateLimiter: the token bucket (`tryConsumeToken`, `msUntilNextToken`)

```js
const RATE_PER_MIN = Number(process.env.CG_RATE_PER_MIN || 45);
const CAPACITY = RATE_PER_MIN;
let tokens = CAPACITY;
let lastRefill = Date.now();
const refillPerMs = RATE_PER_MIN / 60000;
```
-/

def RATE_PER_MIN : ℚ := 45

def CAPACITY : ℚ := RATE_PER_MIN

def refillPerMs : ℚ := RATE_PER_MIN / 60000

/-- The refill step at the top of `tryConsumeToken` (`delta = now - lastRefill`):
`if (delta > 0) { tokens = min(CAPACITY, tokens + delta * refillPerMs); lastRefill = now }`.
Returns the new `(tokens, lastRefill)` pair. -/
def refillTokens (tokens : ℚ) (lastRefill now : ℤ) : ℚ × ℤ :=
  if 0 < now - lastRefill
  then (min CAPACITY (tokens + (now - lastRefill) * refillPerMs), now)
  else (tokens, lastRefill)

/-- `tryConsumeToken()`: refill, then debit one token iff at least one is
available.  Returns `(granted, tokens, lastRefill)`. -/
def tryConsumeToken (tokens : ℚ) (lastRefill now : ℤ) : Bool × ℚ × ℤ :=
  if 1 ≤ (refillTokens tokens lastRefill now).1
  then (true, (refillTokens tokens lastRefill now).1 - 1,
        (refillTokens tokens lastRefill now).2)
  else (false, (refillTokens tokens lastRefill now).1,
        (refillTokens tokens lastRefill now).2)

/-- `msUntilNextToken()`: `0` if a token is available, else
`Math.ceil((1 - tokens) / refillPerMs)`.  Advisory: does not refill. -/
def msUntilNextToken (tokens : ℚ) : ℤ :=
  if 1 ≤ tokens then 0 else Int.ceil ((1 - tokens) / refillPerMs)

/-! ## KeyedCache: the price cache (`fetchPrices`, `scheduleBackgroundRefresh`)

```js
const PRICE_CACHE = new Map(); // key -> { ts, data }
const INFLIGHT = new Map();
const SCHEDULED = new Set();
const PRICE_CACHE_TTL_MS = Number(process.env.CG_TTL_MS || 2500);
```

The synchronous body of `fetchPrices` is one atomic transition of
`PriceState`; the later settlement of the loader promise created by
`doFetch` is the separate transition `loaderSettle` (its `finally` block
deletes the in-flight registration whether the fetch succeeded or failed,
and `doFetch` stores into `PRICE_CACHE` only on success).  Promises are
represented by the numeric id `nextPid` at their creation: callers holding
equal ids await the same promise and hence observe the same resolved value
(on `doFetch` failure that shared value is the stale entry or the static
`FALLBACK`, produced once by the `catch` inside the promise). -/

def PRICE_CACHE_TTL_MS : ℤ := 2500

structure Quote where
  usd : ℚ
  usd_24h_change : ℚ
deriving DecidableEq

abbrev PriceData := List (String × Quote)

/-- `const FALLBACK = { bitcoin: { usd: 64000, usd_24h_change: 1.2 },
ethereum: { usd: 3200, usd_24h_change: -0.4 } }`. -/
def FALLBACK : PriceData :=
  [("bitcoin", ⟨64000, 6/5⟩), ("ethereum", ⟨3200, -2/5⟩)]

/-- Stable ascending insertion for strings: the new element goes after
every element that is at most it. -/
def insAsc (x : String) : List String → List String
  | [] => [x]
  | y :: ys => if charListLe y.data x.data then y :: insAsc x ys else x :: y :: ys

/-- `Array.prototype.sort()` with the default comparator: stable,
ascending lexicographic order; embedded as a stable insertion sort. -/
def sortStrings (l : List String) : List String :=
  l.foldl (fun acc x => insAsc x acc) []

/-- `priceKey(assets)`: default to `["bitcoin","ethereum"]` when empty,
lowercase and trim each id, sort, join with commas. -/
def priceKey (assets : List String) : String :=
  let l := if assets.isEmpty then ["bitcoin", "ethereum"] else assets
  String.intercalate "," (sortStrings (l.map (fun s => trimStr (toLowerStr s))))

structure PriceEntry where
  ts : ℤ
  data : PriceData
deriving DecidableEq

/-- The process-wide mutable state of the price module: `PRICE_CACHE`,
`INFLIGHT`, `SCHEDULED`, the token bucket, and a counter minting fresh
promise ids. -/
structure PriceState where
  cache : List (String × PriceEntry)
  inflight : List (String × ℕ)
  scheduled : List String
  tokens : ℚ
  lastRefill : ℤ
  nextPid : ℕ
deriving DecidableEq

/-- What one `fetchPrices` call hands back to its caller:
* `fresh d` — resolved data from a fresh cache entry (no await);
* `joined pid` — the already in-flight promise `pid`;
* `started pid` — a newly created loader promise `pid` (this call invoked
  `doFetch`);
* `rateLimited d` — resolved stale/fallback data, returned immediately on
  the no-token path. -/
inductive PriceOutcome where
  | fresh (d : PriceData)
  | joined (pid : ℕ)
  | started (pid : ℕ)
  | rateLimited (d : PriceData)
deriving DecidableEq

/-- `scheduleBackgroundRefresh(key)` (synchronous part): return early when a
refresh is already pending for the key, else mark the key pending (the
timer body itself is the later transition `backgroundRefreshFire`). -/
def scheduleBackgroundRefresh (key : String) (s : PriceState) : PriceState :=
  if key ∈ s.scheduled then s else { s with scheduled := key :: s.scheduled }

/-- The body of `fetchPrices` after the fresh-cache check failed (`cached`
is the entry read at the top of the call, if any). -/
def fetchPricesSlow (s : PriceState) (key : String) (cached : Option PriceEntry)
    (now : ℤ) : PriceOutcome × PriceState :=
  match mget s.inflight key with
  | some pid => (.joined pid, s)
  | none =>
    let r := tryConsumeToken s.tokens s.lastRefill now
    let s1 : PriceState := { s with tokens := r.2.1, lastRefill := r.2.2 }
    if r.1 then
      let pid := s1.nextPid
      (.started pid,
        { s1 with inflight := mset s1.inflight key pid, nextPid := pid + 1 })
    else
      let s2 := scheduleBackgroundRefresh key s1
      match cached with
      | some e => (.rateLimited e.data, s2)
      | none => (.rateLimited FALLBACK, s2)

/-- `fetchPrices(assets)` as one atomic transition at time `now`. -/
def fetchPrices (s : PriceState) (assets : List String) (now : ℤ) :
    PriceOutcome × PriceState :=
  let key := priceKey assets
  match mget s.cache key with
  | some e =>
    if now - e.ts < PRICE_CACHE_TTL_MS then (.fresh e.data, s)
    else fetchPricesSlow s key (some e) now
  | none => fetchPricesSlow s key none now

/-- Settlement of the loader promise for `key`: on success (`some (ts, d)`)
`doFetch` has stored `{ ts, data }` into `PRICE_CACHE`; either way the
`finally` block deletes the in-flight registration. -/
def loaderSettle (s : PriceState) (key : String) (result : Option (ℤ × PriceData)) :
    PriceState :=
  let s1 : PriceState :=
    match result with
    | some (ts, d) => { s with cache := mset s.cache key ⟨ts, d⟩ }
    | none => s
  { s1 with inflight := mdel s1.inflight key }

/-- A burst of sequential `fetchPrices` calls for the same assets at the
given times, with no other transition (in particular no promise settlement)
interleaved. -/
def fetchBurst (s : PriceState) (assets : List String) :
    List ℤ → List PriceOutcome × PriceState
  | [] => ([], s)
  | t :: ts =>
    let r := fetchPrices s assets t
    let rest := fetchBurst r.2 assets ts
    (r.1 :: rest.1, rest.2)

/-- No fresh cache entry for `key` at time `now` (entry absent, or its age
is at least the TTL). -/
def isStale (s : PriceState) (key : String) (now : ℤ) : Bool :=
  match mget s.cache key with
  | some e => decide (PRICE_CACHE_TTL_MS ≤ now - e.ts)
  | none => true

/-- The timer body scheduled by `scheduleBackgroundRefresh`, firing at time
`now`: unmark the key, give up if a fetch is already in flight, reschedule
if the bucket still has no token, else consume a token and start the
loader. -/
def backgroundRefreshFire (s : PriceState) (key : String) (now : ℤ) : PriceState :=
  let s0 : PriceState := { s with scheduled := s.scheduled.erase key }
  if mhas s0.inflight key then s0
  else
    let r := tryConsumeToken s0.tokens s0.lastRefill now
    let s1 : PriceState := { s0 with tokens := r.2.1, lastRefill := r.2.2 }
    if r.1 then
      { s1 with inflight := mset s1.inflight key s1.nextPid, nextPid := s1.nextPid + 1 }
    else scheduleBackgroundRefresh key s1

/-! ## RetryingFetcher: `fetchWithBackoff(url, options, attempts = 3)`

The upstream is embedded as the sequence `responses : ℕ → UpstreamResponse`
giving the response to the `i`-th fetch.  A successful return is `.ok i`,
standing for `res.json()` of the `i`-th response; exhausting the attempts
is `.error msg`, standing for `throw lastErr`. -/

structure UpstreamResponse where
  status : ℕ
  /-- `parseFloat(res.headers.get("retry-after"))`, `none` when the header
  is absent or not finite. -/
  retryAfter : Option ℚ
deriving DecidableEq

/-- `res.ok` of the WHATWG fetch API: status in the range 200–299. -/
def respOk (r : UpstreamResponse) : Bool :=
  decide (200 ≤ r.status) && decide (r.status < 300)

/-- The backoff delay computed for attempt `i` (`jitter` stands for
`Math.random() * 300`):
`Number.isFinite(retryAfter) ? Math.max(400, retryAfter * 1000)
: Math.min(1200 * 2 ** i, 5000) + Math.random() * 300`. -/
def backoffDelay (r : UpstreamResponse) (i : ℕ) (jitter : ℚ) : ℚ :=
  match r.retryAfter with
  | some ra => max 400 (ra * 1000)
  | none => min (1200 * 2 ^ i) 5000 + jitter

/-- The retry loop of `fetchWithBackoff`, at attempt `i` with the given
remaining attempts and last error message. -/
def fetchWithBackoffGo (responses : ℕ → UpstreamResponse) :
    ℕ → Option String → ℕ → Except String ℕ
  | _, lastErr, 0 => .error (lastErr.getD "CoinGecko fetch failed")
  | i, _, n + 1 =>
    let res := responses i
    if respOk res && (res.status != 429) then .ok i
    else
      fetchWithBackoffGo responses (i + 1)
        (some ("CoinGecko error: " ++ toString res.status)) n

/-- `fetchWithBackoff(url, options, attempts)`. -/
def fetchWithBackoff (responses : ℕ → UpstreamResponse) (attempts : ℕ) :
    Except String ℕ :=
  fetchWithBackoffGo responses 0 none attempts

/-! ## News items, the static fallback list, and the personalization scorer -/

structure NewsItem where
  id : String
  title : String
  url : String
  source : String
  published_at : Option ℤ
deriving DecidableEq

def FALLBACK_NEWS : List NewsItem :=
  [⟨"fallback-1", "Bitcoin steadies above key moving average",
    "https://example.com/bitcoin-steady", "Fallback", none⟩,
   ⟨"fallback-2", "Ethereum developers hint at next major upgrade",
    "https://example.com/ethereum-upgrade", "Fallback", none⟩,
   ⟨"fallback-3", "Solana ecosystem sees surge in NFT activity",
    "https://example.com/solana-nft", "Fallback", none⟩]

/-- Substring occurrence on character lists. -/
def listContains (needle : List Char) : List Char → Bool
  | [] => needle.isEmpty
  | c :: t => needle.isPrefixOf (c :: t) || listContains needle t

/-- `new RegExp(pat).test(hay)` for a regex that is a plain alternation of
literal words: some alternative occurs in `hay` as a substring. -/
def testAny (pats : List String) (hay : String) : Bool :=
  pats.any (fun p => listContains p.data hay.data)

/-- `LT_POS = /(upgrade|fork|partnership|adoption|etf|institution|regulat|roadmap|ecosystem|integration|on[- ]?chain)/i`
applied to the already-lowercased title (`on[- ]?chain` expanded into its
three alternatives). -/
def ltPosTest (title : String) : Bool :=
  testAny ["upgrade", "fork", "partnership", "adoption", "etf", "institution",
           "regulat", "roadmap", "ecosystem", "integration",
           "on-chain", "on chain", "onchain"] title

/-- `ST_POS = /(pump|dump|spike|rally|sell[- ]?off|liquidat|volatil|break(out|down)|funding|open interest|perp|futures|leverage|whales?)/i`
on the lowercased title (optional groups expanded; `whales?` matches
whenever `whale` occurs). -/
def stPosTest (title : String) : Bool :=
  testAny ["pump", "dump", "spike", "rally", "sell-off", "sell off", "selloff",
           "liquidat", "volatil", "breakout", "breakdown", "funding",
           "open interest", "perp", "futures", "leverage", "whale"] title

/-- `DEFI = /(defi|dex|amm|yield|staking|airdrop|liquidity|lend|borrow)/i`. -/
def defiTest (title : String) : Bool :=
  testAny ["defi", "dex", "amm", "yield", "staking", "airdrop", "liquidity",
           "lend", "borrow"] title

/-- `RISKY = /(rug|exploit|hack|phish|scam|memecoin)/i`. -/
def riskyTest (title : String) : Bool :=
  testAny ["rug", "exploit", "hack", "phish", "scam", "memecoin"] title

/-- `/binance|bybit|okx|kraken|coinbase/.test(domain)` (domain is
lowercased by the caller). -/
def exchDomainTest (domain : String) : Bool :=
  testAny ["binance", "bybit", "okx", "kraken", "coinbase"] domain

/-- `/(partnership|regulat|etf|upgrade)/i.test(title)` in the
conservative branch. -/
def consPosTest (title : String) : Bool :=
  testAny ["partnership", "regulat", "etf", "upgrade"] title

/-- `\w` of JS regexes: ASCII letters, digits and underscore. -/
def isWordChar (c : Char) : Bool := c.isAlpha || c.isDigit || c == '_'

/-- Scan for a word-bounded occurrence; `prev` is the character before the
current position.  Sound for needles made of word characters (the ticker
symbols used with it). -/
def wordBoundedAux (needle : List Char) : Option Char → List Char → Bool
  | _, [] => false
  | prev, c :: t =>
    (needle.isPrefixOf (c :: t)
      && (match prev with | some p => !isWordChar p | none => true)
      && (match (c :: t).drop needle.length with
          | [] => true
          | d :: _ => !isWordChar d))
    || wordBoundedAux needle (some c) t

/-- `new RegExp("\\b" + sym + "\\b").test(hay)`. -/
def wordBounded (needle hay : String) : Bool :=
  wordBoundedAux needle.data none hay.data

/-- `ID_TO_CP`: CoinGecko asset id → CryptoPanic ticker. -/
def idToCp : String → Option String
  | "bitcoin" => some "btc"
  | "ethereum" => some "eth"
  | "solana" => some "sol"
  | "cardano" => some "ada"
  | "ripple" => some "xrp"
  | "dogecoin" => some "doge"
  | _ => none

/-- `[...new Set(xs)]`: deduplicate keeping first occurrences in order. -/
def dedupKeepFirst (l : List String) : List String :=
  l.foldl (fun acc x => if x ∈ acc then acc else acc ++ [x]) []

/-- `toCpSymbols(assets)`: map ids through `ID_TO_CP` (lowercased,
trimmed), dedupe, keep at most 8, join with commas. -/
def toCpSymbols (assets : List String) : String :=
  String.intercalate ","
    ((dedupKeepFirst
      (assets.filterMap (fun id => idToCp (trimStr (toLowerStr id))))).take 8)

/-- `scoreByInvestorType(item, investorType)` at current time `now`
(`Date.now()` in the source). -/
def scoreByInvestorType (now : ℤ) (item : NewsItem) (investorType : String) : ℚ :=
  let title := toLowerStr item.title
  let domain := toLowerStr item.source
  let published := item.published_at.getD now
  let ageMinutes : ℚ := max 1 (((now - published : ℤ) : ℚ) / 60000)
  let base : ℚ := max 0 (200 - ageMinutes)
  match toLowerStr investorType with
  | "trader" | "day_trader" | "short_term" =>
    (base + (if stPosTest title then 40 else 0))
      + (if exchDomainTest domain then 15 else 0)
  | "long_term" | "investor" =>
    (base + (if ltPosTest title then 50 else 0))
      - (if stPosTest title then 10 else 0)
  | "defi" | "builder" => base + (if defiTest title then 40 else 0)
  | "conservative" | "risk_averse" =>
    (base - (if riskyTest title then 30 else 0))
      + (if consPosTest title then 25 else 0)
  | _ => base

/-- `scoreByCoins(item, selectedSymbols)`: +10 per symbol word-bounded in
the lowercased title (case-insensitive regex), +5 per uppercased symbol
word-bounded in the original title (case-sensitive regex). -/
def scoreByCoins (item : NewsItem) (selectedSymbols : List String) : ℚ :=
  if selectedSymbols.isEmpty then 0
  else
    selectedSymbols.foldl (fun s sym =>
      let s1 := if wordBounded sym (toLowerStr item.title) then s + 10 else s
      if wordBounded (toUpperStr sym) item.title then s1 + 5 else s1) 0

/-- User preferences as parsed from the preference store
(`content_types` is not consulted by any scoring path). -/
structure Prefs where
  assets : List String
  investorType : String
deriving DecidableEq

/-- Stable insertion into a list sorted by descending score: the new
element goes after every element scoring at least as much. -/
def insDesc (x : NewsItem × ℚ) : List (NewsItem × ℚ) → List (NewsItem × ℚ)
  | [] => [x]
  | y :: ys => if x.2 ≤ y.2 then y :: insDesc x ys else x :: y :: ys

/-- `scored.sort((a, b) => b.score - a.score)`: the ECMAScript sort is
stable and orders by descending score; embedded as a stable insertion
sort. -/
def sortByScoreDesc (l : List (NewsItem × ℚ)) : List (NewsItem × ℚ) :=
  l.foldl (fun acc x => insDesc x acc) []

/-- `personalizeNews(items, prefs)` at current time `now`: score every item
by coin match plus investor-type affinity, sort descending, keep 60. -/
def personalizeNews (now : ℤ) (items : List NewsItem) (prefs : Prefs) :
    List NewsItem :=
  let cpSymbols := (splitOnComma (toCpSymbols prefs.assets)).filter (fun s => s != "")
  let scored := items.map (fun it =>
    (it, scoreByCoins it cpSymbols + scoreByInvestorType now it prefs.investorType))
  ((sortByScoreDesc scored).take 60).map (fun x => x.1)

/-! ## `fetchNews`: the shared query-keyed news cache

`NEWS_CACHE` is keyed by `newsKey(q) = JSON.stringify(q)`, which is
injective on query records; the embedding keys the cache by the query
record itself.  A page fetch is the oracle
`pageFetch : ℕ → Option (List RawNewsItem)`: `none` models a thrown fetch
error, a non-OK status or a JSON parse failure (all reach the same
`catch`), `some results` a successfully parsed `data.results` array. -/

def NEWS_TTL_MS : ℤ := 60000

structure NewsQuery where
  page : ℕ
  pages : ℕ
  kind : String
  filter : Option String
  regions : String
  currencies : Option String
deriving DecidableEq

structure RawNewsItem where
  id : Option ℤ
  title : String
  url : String
  sourceTitle : Option String
  published_at : Option ℤ
deriving DecidableEq

/-- The `results.map(...)` inside `fetchNews`:
`{ id: String(it.id ?? it.url), title, url, source: it.source?.title || "CryptoPanic", published_at }`. -/
def mapRawItem (it : RawNewsItem) : NewsItem :=
  { id := match it.id with | some n => toString n | none => it.url
    title := it.title
    url := it.url
    source := match it.sourceTitle with
      | some s => if s = "" then "CryptoPanic" else s
      | none => "CryptoPanic"
    published_at := it.published_at }

/-- The page loop of `fetchNews` starting at page `p` with the given number
of pages left: on a page error bail out and keep what was gathered; after
an empty page stop. -/
def fetchNewsLoop (pageFetch : ℕ → Option (List RawNewsItem)) : ℕ → ℕ → List NewsItem
  | _, 0 => []
  | p, n + 1 =>
    match pageFetch p with
    | none => []
    | some results =>
      let mapped := results.map mapRawItem
      mapped ++ (if mapped.isEmpty then [] else fetchNewsLoop pageFetch (p + 1) n)

abbrev NewsCache := List (NewsQuery × (ℤ × List NewsItem))

/-- The body of `fetchNews` after the fresh-cache check failed. -/
def fetchNewsMiss (cache : NewsCache) (q : NewsQuery) (now : ℤ)
    (pageFetch : ℕ → Option (List RawNewsItem)) : List NewsItem × NewsCache :=
  let out := fetchNewsLoop pageFetch q.page q.pages
  let items := if out.isEmpty then FALLBACK_NEWS else out
  (items, mset cache q (now, items))

/-- `fetchNews(q)` at time `now`. -/
def fetchNews (cache : NewsCache) (q : NewsQuery) (now : ℤ)
    (pageFetch : ℕ → Option (List RawNewsItem)) : List NewsItem × NewsCache :=
  match mget cache q with
  | some c =>
    if now - c.1 < NEWS_TTL_MS then (c.2, cache)
    else fetchNewsMiss cache q now pageFetch
  | none => fetchNewsMiss cache q now pageFetch

/-! ## StickyUserStore: per-user sticky news (`USER_NEWS`)

`NEWS_MAX_USERS = Number(process.env.NEWS_CACHE_MAX_USERS || 500)` and
`AI_MAX_USERS = Number(process.env.AI_CACHE_MAX_USERS || 1000)` are
environment-configured; the embeddings take the configured bound as the
argument `maxUsers`. -/

def NEWS_REFRESH_MIN_INTERVAL_MS : ℤ := 30000

structure UserNewsRec where
  items : List NewsItem
  updatedAt : ℤ
  lastRefreshAt : ℤ
deriving DecidableEq

/-- `getUserNews(userId)`: stored record, or the fallback default. -/
def getUserNews (store : List (String × UserNewsRec)) (uid : String) : UserNewsRec :=
  (mget store uid).getD ⟨FALLBACK_NEWS, 0, 0⟩

/-- One iteration of the eviction scan of `setUserNews` / `setUserAi`:
`if (v.updatedAt < oldestTs) { oldestTs = v.updatedAt; oldestKey = k }`,
with `oldestTs = Infinity` represented as `none`. -/
def oldestStep {α β : Type} [LinearOrder β] (ts : α → β)
    (acc : Option String × Option β) (kv : String × α) : Option String × Option β :=
  match acc.2 with
  | none => (some kv.1, some (ts kv.2))
  | some o => if ts kv.2 < o then (some kv.1, some (ts kv.2)) else acc

/-- The eviction scan shared by `setUserNews` and `setUserAi`: fold over
the entries in iteration (= insertion) order tracking the key with the
strictly smallest timestamp. -/
def oldestKeyBy {α β : Type} [LinearOrder β] (ts : α → β) (l : List (String × α)) :
    Option String × Option β :=
  l.foldl (oldestStep ts) (none, none)

/-- `setUserNews(userId, items)` at time `now`: evict the entry with the
oldest `updatedAt` when inserting a previously-absent id into a full store
(JS guard `if (oldestKey)` skips the deletion when the found key is the
empty string, which is falsy), then store
`{ items: items.length ? items : FALLBACK_NEWS, updatedAt: now, lastRefreshAt: now }`. -/
def setUserNews (maxUsers : ℕ) (store : List (String × UserNewsRec)) (uid : String)
    (items : List NewsItem) (now : ℤ) : List (String × UserNewsRec) :=
  let store1 :=
    if ¬ mhas store uid ∧ maxUsers ≤ store.length then
      match (oldestKeyBy (fun v => v.updatedAt) store).1 with
      | some k => if k ≠ "" then mdel store k else store
      | none => store
    else store
  mset store1 uid ⟨if items.isEmpty then FALLBACK_NEWS else items, now, now⟩

/-! ## News route handlers -/

/-- A JSON value as sent by the handlers (only the shapes they emit). -/
inductive JVal where
  | jbool (b : Bool)
  | jnum (n : ℤ)
  | jstr (s : String)
  | jitems (l : List NewsItem)
deriving DecidableEq

structure HttpResponse where
  status : ℕ
  body : List (String × JVal)
deriving DecidableEq

/-- The news-side process state: the per-user sticky store and the shared
query cache. -/
structure NewsSystem where
  userNews : List (String × UserNewsRec)
  newsCache : NewsCache
deriving DecidableEq

/-- `refreshNewsHandler` (POST `/api/dashboard/news/refresh`) for user
`uid` at time `now`; `prefs` is the preference row (already parsed,
`none` when absent) and `pageFetch` the upstream oracle. -/
def refreshNewsHandler (maxUsers : ℕ) (sys : NewsSystem) (uid : String) (now : ℤ)
    (prefs : Option Prefs) (pageFetch : ℕ → Option (List RawNewsItem)) :
    HttpResponse × NewsSystem :=
  let existing := getUserNews sys.userNews uid
  if now - existing.lastRefreshAt < NEWS_REFRESH_MIN_INTERVAL_MS then
    ({ status := 429
       body := [("error", .jstr "Too soon"),
                ("retryAfterMs",
                  .jnum (NEWS_REFRESH_MIN_INTERVAL_MS - (now - existing.lastRefreshAt))),
                ("items", .jitems existing.items),
                ("updatedAt", .jnum existing.updatedAt)] }, sys)
  else
    let p := prefs.getD ⟨[], ""⟩
    let currenciesArg := toCpSymbols p.assets
    let r1 :=
      if currenciesArg ≠ "" then
        fetchNews sys.newsCache ⟨1, 1, "news", none, "en", some currenciesArg⟩ now pageFetch
      else ([], sys.newsCache)
    let r2 :=
      if r1.1.isEmpty then
        fetchNews r1.2 ⟨1, 1, "news", none, "en", none⟩ now pageFetch
      else r1
    let personalized := personalizeNews now r2.1 p
    let userNews1 := setUserNews maxUsers sys.userNews uid personalized now
    let data := getUserNews userNews1 uid
    ({ status := 200
       body := [("items", .jitems data.items), ("updatedAt", .jnum data.updatedAt)] },
     { userNews := userNews1, newsCache := r2.2 })

/-! ## PeriodicInsightCache: the per-user daily AI insight

`Intl.DateTimeFormat` with `timeZone: APP_TZ` is modelled as a fixed UTC
offset of `offMs ≥ 0` milliseconds: the `YYYY-MM-DD` day string is
represented by the local day number `(t + offMs) / 86400000` (two `Date`s
get equal day keys iff they fall on the same local calendar day).  Times
are epoch milliseconds (`ℕ`).  The per-user in-flight coalescing table is
the identity in this sequential embedding: every call runs to completion
before the next. -/

def AI_INSIGHT_CUTOFF_HOUR : ℕ := 7

def LOCAL_AI_FALLBACKS : List String :=
  ["BTC holding above support - watch funding before adding size.",
   "ETH/BTC shows relative strength - consider gradual rotation.",
   "SOL volume rising - wait for confirmed breakout before entering.",
   "Volatility elevated - keep positions small today."]

/-- `formatDayKey(date)`: the local calendar day (fixed-offset model). -/
def formatDayKey (offMs t : ℕ) : ℕ := (t + offMs) / 86400000

/-- `getHourInTz(date)`: the local hour of day (fixed-offset model). -/
def getHourInTz (offMs t : ℕ) : ℕ := (t + offMs) / 3600000 % 24

/-- `currentPeriodKey()`: before the cutoff hour, the calendar day of
`now - 24 * 60 * 60 * 1000`; otherwise today's. -/
def currentPeriodKey (offMs now : ℕ) : ℕ :=
  if getHourInTz offMs now < AI_INSIGHT_CUTOFF_HOUR then
    formatDayKey offMs (now - 24 * 60 * 60 * 1000)
  else formatDayKey offMs now

structure AiItem where
  id : String
  text : String
deriving DecidableEq

/-- `USER_AI_CACHE` rows: `{ key, item, ts }`. -/
structure AiRec where
  key : ℕ
  item : AiItem
  ts : ℕ
deriving DecidableEq

/-- `setUserAi(userId, rec)`: same eviction-by-oldest-`ts` scan as
`setUserNews` (including the falsy-key guard), then store the record. -/
def setUserAi (maxUsers : ℕ) (cache : List (String × AiRec)) (uid : String)
    (rec : AiRec) : List (String × AiRec) :=
  let cache1 :=
    if ¬ mhas cache uid ∧ maxUsers ≤ cache.length then
      match (oldestKeyBy (fun v => v.ts) cache).1 with
      | some k => if k ≠ "" then mdel cache k else cache
      | none => cache
    else cache
  mset cache1 uid rec

/-- The compute path of `getDailyAiInsight` (cache miss for the current
period key): `computeResult = some item` models `fetchAiInsight`
succeeding with `item`, `none` models it throwing; on failure a stale
same-key record is served if present, else the canned fallback
`{ id: "ai-static", text: LOCAL_AI_FALLBACKS[fallbackIdx] }` is cached and
returned (`fallbackIdx` stands for the `Math.random()` pick).  The third
component reports whether `fetchAiInsight` was invoked. -/
def getDailyAiInsightCompute (maxUsers : ℕ) (cache : List (String × AiRec))
    (uid : String) (key now : ℕ) (computeResult : Option AiItem) (fallbackIdx : ℕ) :
    AiItem × List (String × AiRec) × Bool :=
  match computeResult with
  | some item => (item, setUserAi maxUsers cache uid ⟨key, item, now⟩, true)
  | none =>
    match mget cache uid with
    | some last =>
      if last.key = key then (last.item, cache, true)
      else
        let fb : AiItem :=
          ⟨"ai-static", LOCAL_AI_FALLBACKS.getD (fallbackIdx % LOCAL_AI_FALLBACKS.length) ""⟩
        (fb, setUserAi maxUsers cache uid ⟨key, fb, now⟩, true)
    | none =>
      let fb : AiItem :=
        ⟨"ai-static", LOCAL_AI_FALLBACKS.getD (fallbackIdx % LOCAL_AI_FALLBACKS.length) ""⟩
      (fb, setUserAi maxUsers cache uid ⟨key, fb, now⟩, true)

/-- `getDailyAiInsight(userId, ...)` at time `now`, run to completion
(sequential calls; the per-user in-flight map is empty between calls). -/
def getDailyAiInsight (maxUsers offMs : ℕ) (cache : List (String × AiRec))
    (uid : String) (now : ℕ) (computeResult : Option AiItem) (fallbackIdx : ℕ) :
    AiItem × List (String × AiRec) × Bool :=
  let key := currentPeriodKey offMs now
  match mget cache uid with
  | some existing =>
    if existing.key = key then (existing.item, cache, false)
    else getDailyAiInsightCompute maxUsers cache uid key now computeResult fallbackIdx
  | none => getDailyAiInsightCompute maxUsers cache uid key now computeResult fallbackIdx
/-! ### Simp lemmas for the map helpers -/

@[simp]
theorem mget_nil {κ α : Type} [DecidableEq κ] (q : κ) :
    mget ([] : List (κ × α)) q = none := rfl

@[simp]
theorem mget_cons {κ α : Type} [DecidableEq κ] (k q : κ) (v : α) (t : List (κ × α)) :
    mget ((k, v) :: t) q = if k = q then some v else mget t q := rfl

@[simp]
theorem mget_mset_self {κ α : Type} [DecidableEq κ] (l : List (κ × α)) (q : κ) (v : α) :
    mget (mset l q v) q = some v := by
  induction l with
  | nil => simp [mset]
  | cons h t ih =>
    obtain ⟨k, w⟩ := h
    by_cases hk : k = q <;> simp [mset, hk, ih]

theorem mget_mset_ne {κ α : Type} [DecidableEq κ] (l : List (κ × α)) (q q' : κ) (v : α)
    (h : q ≠ q') : mget (mset l q v) q' = mget l q' := by
  induction l with
  | nil => simp [mset, h]
  | cons hd t ih =>
    obtain ⟨k, w⟩ := hd
    by_cases hk : k = q
    · subst hk; simp [mset, h]
    · simp only [mset, if_neg hk, mget_cons]
      by_cases hk' : k = q' <;> simp [hk', ih]

theorem length_mset {κ α : Type} [DecidableEq κ] (l : List (κ × α)) (q : κ) (v : α) :
    (mset l q v).length = if mhas l q then l.length else l.length + 1 := by
  induction l with
  | nil => simp [mset, mhas, mget]
  | cons hd t ih =>
    obtain ⟨k, w⟩ := hd
    by_cases hk : k = q
    · simp [mset, hk, mhas, mget]
    · simp only [mset, if_neg hk, List.length_cons, ih, mhas, mget_cons, hk, if_false]
      by_cases h : (mget t q).isSome <;> simp [mhas, h]

theorem mget_mdel_ne {κ α : Type} [DecidableEq κ] (l : List (κ × α)) (q q' : κ)
    (h : q ≠ q') : mget (mdel l q) q' = mget l q' := by
  induction l with
  | nil => simp [mdel]
  | cons hd t ih =>
    obtain ⟨k, w⟩ := hd
    by_cases hk : k = q
    · subst hk; simp [mdel, h]
    · simp only [mdel, if_neg hk, mget_cons, ih]

theorem length_mdel_of_mhas {κ α : Type} [DecidableEq κ] (l : List (κ × α)) (q : κ)
    (h : mhas l q) : (mdel l q).length = l.length - 1 := by
  induction l with
  | nil => simp [mhas, mget] at h
  | cons hd t ih =>
    obtain ⟨k, w⟩ := hd
    by_cases hk : k = q
    · simp [mdel, hk]
    · have ht : mhas t q := by simpa [mhas, mget, hk] using h
      have : 1 ≤ t.length := by
        cases t with
        | nil => simp [mhas, mget] at ht
        | cons a b => simp
      simp only [mdel, if_neg hk, List.length_cons, ih ht]
      omega

theorem mhas_of_mget {κ α : Type} [DecidableEq κ] {l : List (κ × α)} {q : κ} {v : α}
    (h : mget l q = some v) : mhas l q := by simp [mhas, h]

/-! ## RateLimiter theorems -/

theorem refillPerMs_pos : (0 : ℚ) < refillPerMs := by
  norm_num [refillPerMs, RATE_PER_MIN]

theorem one_le_CAPACITY : (1 : ℚ) ≤ CAPACITY := by
  norm_num [CAPACITY, RATE_PER_MIN]

/-- The refill step never lifts the count above capacity. -/
theorem refillTokens_le_cap (tokens : ℚ) (lastRefill now : ℤ)
    (h : tokens ≤ CAPACITY) : (refillTokens tokens lastRefill now).1 ≤ CAPACITY := by
  unfold refillTokens
  split
  · exact min_le_left _ _
  · exact h

/-- After waiting out `msUntilNextToken` (measured from any `now` at or
after the last refill), the refilled count reaches 1. -/
theorem one_le_refill_after_wait (tokens : ℚ) (lastRefill now nowW : ℤ)
    (hlr : lastRefill ≤ now) (hwait : now + msUntilNextToken tokens ≤ nowW) :
    1 ≤ (refillTokens tokens lastRefill nowW).1 := by
  by_cases ht : (1 : ℚ) ≤ tokens
  · have hms : msUntilNextToken tokens = 0 := by simp [msUntilNextToken, ht]
    rw [hms] at hwait
    unfold refillTokens
    split
    · rename_i hd
      refine le_min one_le_CAPACITY ?_
      have h0 : (0 : ℚ) ≤ ((nowW : ℚ) - (lastRefill : ℚ)) * refillPerMs := by
        have hd' : (0 : ℚ) ≤ ((nowW - lastRefill : ℤ) : ℚ) := by exact_mod_cast le_of_lt hd
        push_cast at hd'
        exact mul_nonneg hd' (le_of_lt refillPerMs_pos)
      linarith
    · exact ht
  · push_neg at ht
    have hq : (0 : ℚ) < (1 - tokens) / refillPerMs :=
      div_pos (by linarith) refillPerMs_pos
    have hmsdef : msUntilNextToken tokens = Int.ceil ((1 - tokens) / refillPerMs) := by
      simp [msUntilNextToken, not_le.2 ht]
    have hms1 : (1 : ℤ) ≤ msUntilNextToken tokens := by
      rw [hmsdef]; exact Int.ceil_pos.mpr hq
    have hdpos : (0 : ℤ) < nowW - lastRefill := by omega
    have hdge : ((msUntilNextToken tokens : ℤ) : ℚ) ≤ ((nowW - lastRefill : ℤ) : ℚ) := by
      exact_mod_cast (by omega : msUntilNextToken tokens ≤ nowW - lastRefill)
    have hceil : (1 - tokens) / refillPerMs ≤ ((nowW - lastRefill : ℤ) : ℚ) := by
      calc (1 - tokens) / refillPerMs
          ≤ ((Int.ceil ((1 - tokens) / refillPerMs) : ℤ) : ℚ) := Int.le_ceil _
        _ = ((msUntilNextToken tokens : ℤ) : ℚ) := by rw [hmsdef]
        _ ≤ _ := hdge
    have hmul : (1 - tokens) ≤ ((nowW - lastRefill : ℤ) : ℚ) * refillPerMs := by
      have := mul_le_mul_of_nonneg_right hceil (le_of_lt refillPerMs_pos)
      rwa [div_mul_cancel₀ _ (ne_of_gt refillPerMs_pos)] at this
    push_cast at hmul
    unfold refillTokens
    rw [if_pos hdpos]
    exact le_min one_le_CAPACITY (by linarith)

/-- **C2.** Token-bucket invariants of `tryConsumeToken` / `msUntilNextToken`:
(1) the token count never exceeds capacity; (2) when the post-refill count
is below 1 the call returns `false` and debits nothing; (3) when it is at
least 1 the call returns `true` and debits exactly one token; (4) a call
made `msUntilNextToken()` milliseconds (or more) after `now`, with no
intervening consumer, succeeds. -/
theorem tryConsumeToken_spec (tokens : ℚ) (lastRefill now nowW : ℤ)
    (hcap : tokens ≤ CAPACITY) (hlr : lastRefill ≤ now)
    (hwait : now + msUntilNextToken tokens ≤ nowW) :
    (tryConsumeToken tokens lastRefill now).2.1 ≤ CAPACITY
    ∧ ((refillTokens tokens lastRefill now).1 < 1 →
        tryConsumeToken tokens lastRefill now =
          (false, (refillTokens tokens lastRefill now).1,
            (refillTokens tokens lastRefill now).2))
    ∧ (1 ≤ (refillTokens tokens lastRefill now).1 →
        tryConsumeToken tokens lastRefill now =
          (true, (refillTokens tokens lastRefill now).1 - 1,
            (refillTokens tokens lastRefill now).2))
    ∧ (tryConsumeToken tokens lastRefill nowW).1 = true := by
  have hle := refillTokens_le_cap tokens lastRefill now hcap
  refine ⟨?_, ?_, ?_, ?_⟩
  · unfold tryConsumeToken
    split <;> simp <;> linarith
  · intro h
    unfold tryConsumeToken
    rw [if_neg (by linarith)]
  · intro h
    unfold tryConsumeToken
    rw [if_pos h]
  · have h1 := one_le_refill_after_wait tokens lastRefill now nowW hlr hwait
    unfold tryConsumeToken
    rw [if_pos h1]

/-- Witness: a bucket holding half a token at `lastRefill = 0`; at
`now = 100` the advisory wait is 667 ms, and a consume at `now = 767`
succeeds. -/
theorem tryConsumeToken_spec_witness :
    (tryConsumeToken (1/2) 0 100).2.1 ≤ CAPACITY
    ∧ ((refillTokens (1/2) 0 100).1 < 1 →
        tryConsumeToken (1/2) 0 100 =
          (false, (refillTokens (1/2) 0 100).1, (refillTokens (1/2) 0 100).2))
    ∧ (1 ≤ (refillTokens (1/2) 0 100).1 →
        tryConsumeToken (1/2) 0 100 =
          (true, (refillTokens (1/2) 0 100).1 - 1, (refillTokens (1/2) 0 100).2))
    ∧ (tryConsumeToken (1/2) 0 767).1 = true :=
  tryConsumeToken_spec (1/2) 0 100 767 (by norm_num [CAPACITY, RATE_PER_MIN])
    (by norm_num)
    (by
      have hc : msUntilNextToken (1/2) = 667 := by
        rw [msUntilNextToken, if_neg (by norm_num),
          show ((1 : ℚ) - 1/2) / refillPerMs = 2000/3 by
            norm_num [refillPerMs, RATE_PER_MIN]]
        rw [Int.ceil_eq_iff]
        norm_num
      rw [hc]
      norm_num)

/-! ## KeyedCache theorems -/

theorem mget_eq_none_iff {κ α : Type} [DecidableEq κ] (l : List (κ × α)) (q : κ) :
    mget l q = none ↔ q ∉ l.map Prod.fst := by
  induction l with
  | nil => simp
  | cons hd t ih =>
    obtain ⟨k, w⟩ := hd
    by_cases hk : k = q
    · subst hk
      simp
    · have hqk : q ≠ k := fun h => hk h.symm
      rw [mget_cons, if_neg hk, ih]
      simp [List.mem_cons, hqk]

theorem mget_mdel_self_of_nodup {κ α : Type} [DecidableEq κ] (l : List (κ × α)) (q : κ)
    (h : (l.map Prod.fst).Nodup) : mget (mdel l q) q = none := by
  induction l with
  | nil => simp [mdel]
  | cons hd t ih =>
    obtain ⟨k, w⟩ := hd
    simp only [List.map_cons, List.nodup_cons] at h
    by_cases hk : k = q
    · subst hk
      simp only [mdel, if_pos rfl]
      exact (mget_eq_none_iff t k).2 h.1
    · simp only [mdel, if_neg hk, mget_cons, if_neg hk]
      exact ih h.2

/-- Staleness only gets worse as time advances. -/
theorem isStale_mono (s : PriceState) (key : String) (t t' : ℤ)
    (h : isStale s key t = true) (hle : t ≤ t') : isStale s key t' = true := by
  unfold isStale at h ⊢
  cases hm : mget s.cache key with
  | none => simp
  | some e =>
    rw [hm] at h
    simp only [decide_eq_true_eq] at h ⊢
    omega

/-- Staleness depends only on the cache component. -/
theorem isStale_congr (s s' : PriceState) (h : s'.cache = s.cache) (key : String)
    (t : ℤ) : isStale s' key t = isStale s key t := by
  unfold isStale
  rw [h]

/-- An in-flight promise short-circuits the slow path. -/
theorem fetchPricesSlow_joined (s : PriceState) (key : String)
    (cached : Option PriceEntry) (now : ℤ) (pid : ℕ)
    (h : mget s.inflight key = some pid) :
    fetchPricesSlow s key cached now = (.joined pid, s) := by
  unfold fetchPricesSlow
  rw [h]

/-- A `fetchPrices` call that sees no fresh entry and an in-flight promise
joins that promise and leaves the state untouched. -/
theorem fetchPrices_joined (s : PriceState) (assets : List String) (now : ℤ) (pid : ℕ)
    (h1 : mget s.inflight (priceKey assets) = some pid)
    (h2 : isStale s (priceKey assets) now = true) :
    fetchPrices s assets now = (.joined pid, s) := by
  cases hm : mget s.cache (priceKey assets) with
  | none =>
    simp only [fetchPrices, hm]
    exact fetchPricesSlow_joined s _ none now pid h1
  | some e =>
    have hlt : ¬ (now - e.ts < PRICE_CACHE_TTL_MS) := by
      unfold isStale at h2
      rw [hm] at h2
      simp only [decide_eq_true_eq] at h2
      omega
    simp only [fetchPrices, hm, if_neg hlt]
    exact fetchPricesSlow_joined s _ (some e) now pid h1

/-- A `fetchPrices` call that sees no fresh entry, no in-flight promise and
a granted token starts the loader and registers the new promise. -/
theorem fetchPrices_start (s : PriceState) (assets : List String) (now : ℤ)
    (h1 : mget s.inflight (priceKey assets) = none)
    (h2 : isStale s (priceKey assets) now = true)
    (h3 : (tryConsumeToken s.tokens s.lastRefill now).1 = true) :
    fetchPrices s assets now = (.started s.nextPid,
      { s with tokens := (tryConsumeToken s.tokens s.lastRefill now).2.1,
               lastRefill := (tryConsumeToken s.tokens s.lastRefill now).2.2,
               inflight := mset s.inflight (priceKey assets) s.nextPid,
               nextPid := s.nextPid + 1 }) := by
  have hslow : fetchPricesSlow s (priceKey assets) (mget s.cache (priceKey assets)) now
      = (.started s.nextPid,
        { s with tokens := (tryConsumeToken s.tokens s.lastRefill now).2.1,
                 lastRefill := (tryConsumeToken s.tokens s.lastRefill now).2.2,
                 inflight := mset s.inflight (priceKey assets) s.nextPid,
                 nextPid := s.nextPid + 1 }) := by
    unfold fetchPricesSlow
    rw [h1]
    simp only [h3, if_true]
  cases hm : mget s.cache (priceKey assets) with
  | none =>
    simp only [fetchPrices, hm]
    rw [hm] at hslow
    exact hslow
  | some e =>
    have hlt : ¬ (now - e.ts < PRICE_CACHE_TTL_MS) := by
      unfold isStale at h2
      rw [hm] at h2
      simp only [decide_eq_true_eq] at h2
      omega
    simp only [fetchPrices, hm, if_neg hlt]
    rw [hm] at hslow
    exact hslow

/-- A whole burst of calls arriving while the same promise is in flight
joins it without touching the state. -/
theorem fetchBurst_joined (s : PriceState) (assets : List String) (p : ℕ) :
    ∀ ts : List ℤ, (∀ x ∈ ts, isStale s (priceKey assets) x = true) →
      mget s.inflight (priceKey assets) = some p →
      fetchBurst s assets ts = (ts.map (fun _ => PriceOutcome.joined p), s)
  | [], _, _ => by simp [fetchBurst]
  | t :: ts, h, hp => by
    have h1 := fetchPrices_joined s assets t p hp (h t (by simp))
    have h2 := fetchBurst_joined s assets p ts (fun x hx => h x (by simp [hx])) hp
    simp [fetchBurst, h1, h2]

/-- **C1.** Coalescing of concurrent `fetchPrices` calls for one key: in a
burst of `1 + ts.length` sequential calls arriving while no fresh entry
exists (none settling in between), with no fetch in flight initially and
the rate limiter granting a token, the loader is started exactly once — by
the first call — and every later call joins the very same promise
`s.nextPid`, which stays registered in the in-flight table; any call that
observes an in-flight promise joins it without changing the state; and
settling the loader (`loaderSettle`), whether with a success or a failure,
always removes the in-flight registration for its key. -/
theorem fetchPrices_coalescing (s s3 sL : PriceState) (assets : List String)
    (t t3 : ℤ) (ts : List ℤ) (q : ℕ) (k : String) (r : Option (ℤ × PriceData))
    (h1 : isStale s (priceKey assets) t = true)
    (h2 : mget s.inflight (priceKey assets) = none)
    (h3 : (tryConsumeToken s.tokens s.lastRefill t).1 = true)
    (h4 : ∀ x ∈ ts, t ≤ x)
    (h5 : mget s3.inflight (priceKey assets) = some q)
    (h6 : isStale s3 (priceKey assets) t3 = true)
    (h7 : (sL.inflight.map Prod.fst).Nodup) :
    (fetchBurst s assets (t :: ts)).1
        = PriceOutcome.started s.nextPid
            :: ts.map (fun _ => PriceOutcome.joined s.nextPid)
    ∧ mget (fetchBurst s assets (t :: ts)).2.inflight (priceKey assets)
        = some s.nextPid
    ∧ fetchPrices s3 assets t3 = (.joined q, s3)
    ∧ mget (loaderSettle sL k r).inflight k = none := by
  have hstart := fetchPrices_start s assets t h2 h1 h3
  set S : PriceState :=
    { s with tokens := (tryConsumeToken s.tokens s.lastRefill t).2.1,
             lastRefill := (tryConsumeToken s.tokens s.lastRefill t).2.2,
             inflight := mset s.inflight (priceKey assets) s.nextPid,
             nextPid := s.nextPid + 1 } with hSdef
  have hScache : S.cache = s.cache := by rw [hSdef]
  have hSin : mget S.inflight (priceKey assets) = some s.nextPid := by
    rw [hSdef]
    exact mget_mset_self _ _ _
  have hstal : ∀ x ∈ ts, isStale S (priceKey assets) x = true := fun x hx => by
    rw [isStale_congr s S hScache]
    exact isStale_mono s _ t x h1 (h4 x hx)
  have hburst := fetchBurst_joined S assets s.nextPid ts hstal hSin
  refine ⟨?_, ?_, fetchPrices_joined s3 assets t3 q h5 h6, ?_⟩
  · simp [fetchBurst, hstart, hburst]
  · simp [fetchBurst, hstart, hburst, hSin]
  · cases r with
    | none =>
      simpa [loaderSettle] using mget_mdel_self_of_nodup sL.inflight k h7
    | some p =>
      obtain ⟨rts, rd⟩ := p
      simpa [loaderSettle] using mget_mdel_self_of_nodup sL.inflight k h7

/-- Witness for C1: an empty cache with a full bucket, three concurrent
calls for `["bitcoin"]`; a fourth call observing in-flight promise 7; a
settle of key `"x"`. -/
theorem fetchPrices_coalescing_witness :
    (fetchBurst ⟨[], [], [], 45, 0, 0⟩ ["bitcoin"] [0, 0, 5]).1
        = PriceOutcome.started 0
            :: [(0 : ℤ), 5].map (fun _ => PriceOutcome.joined 0)
    ∧ mget (fetchBurst ⟨[], [], [], 45, 0, 0⟩ ["bitcoin"] [0, 0, 5]).2.inflight
        (priceKey ["bitcoin"]) = some 0
    ∧ fetchPrices ⟨[], [("bitcoin", 7)], [], 45, 0, 9⟩ ["bitcoin"] 0
        = (.joined 7, ⟨[], [("bitcoin", 7)], [], 45, 0, 9⟩)
    ∧ mget (loaderSettle ⟨[], [("x", 3)], [], 0, 0, 0⟩ "x" none).inflight "x"
        = none :=
  fetchPrices_coalescing ⟨[], [], [], 45, 0, 0⟩ ⟨[], [("bitcoin", 7)], [], 45, 0, 9⟩
    ⟨[], [("x", 3)], [], 0, 0, 0⟩ ["bitcoin"] 0 0 [0, 5] 7 "x" none
    (by decide) (by decide) (by decide) (by decide) (by decide) (by decide) (by decide)

/-- **C7.** TTL respect: at `tFresh` with `tFresh - e.ts < TTL` the stored
entry is returned unchanged — no loader invocation, no token consumed, no
state change at all; at `tStale` with `tStale - e.ts ≥ TTL` the entry is
eligible and (with no fetch in flight and a token granted) the loader is
indeed invoked. -/
theorem fetchPrices_ttl (s : PriceState) (assets : List String) (e : PriceEntry)
    (tFresh tStale : ℤ)
    (h1 : mget s.cache (priceKey assets) = some e)
    (h2 : tFresh - e.ts < PRICE_CACHE_TTL_MS)
    (h3 : PRICE_CACHE_TTL_MS ≤ tStale - e.ts)
    (h4 : mget s.inflight (priceKey assets) = none)
    (h5 : (tryConsumeToken s.tokens s.lastRefill tStale).1 = true) :
    fetchPrices s assets tFresh = (.fresh e.data, s)
    ∧ (fetchPrices s assets tStale).1 = .started s.nextPid := by
  constructor
  · simp only [fetchPrices, h1, if_pos h2]
  · have hstale : isStale s (priceKey assets) tStale = true := by
      unfold isStale
      rw [h1]
      simpa using h3
    rw [fetchPrices_start s assets tStale h4 hstale h5]

/-- Witness for C7: one entry stored at time 0, probed at 1000 (fresh) and
at 3000 (stale, with a full bucket and no in-flight fetch). -/
theorem fetchPrices_ttl_witness :
    fetchPrices ⟨[("bitcoin", ⟨0, FALLBACK⟩)], [], [], 45, 3000, 4⟩ ["bitcoin"] 1000
        = (.fresh FALLBACK, ⟨[("bitcoin", ⟨0, FALLBACK⟩)], [], [], 45, 3000, 4⟩)
    ∧ (fetchPrices ⟨[("bitcoin", ⟨0, FALLBACK⟩)], [], [], 45, 3000, 4⟩ ["bitcoin"] 3000).1
        = .started 4 :=
  fetchPrices_ttl ⟨[("bitcoin", ⟨0, FALLBACK⟩)], [], [], 45, 3000, 4⟩ ["bitcoin"]
    ⟨0, FALLBACK⟩ 1000 3000 (by rfl) (by decide) (by decide) (by decide) (by rfl)

theorem scheduleBackgroundRefresh_inflight (key : String) (s : PriceState) :
    (scheduleBackgroundRefresh key s).inflight = s.inflight := by
  unfold scheduleBackgroundRefresh
  split <;> rfl

theorem scheduleBackgroundRefresh_cache (key : String) (s : PriceState) :
    (scheduleBackgroundRefresh key s).cache = s.cache := by
  unfold scheduleBackgroundRefresh
  split <;> rfl

theorem scheduleBackgroundRefresh_scheduled (key : String) (s : PriceState) :
    (scheduleBackgroundRefresh key s).scheduled
      = if key ∈ s.scheduled then s.scheduled else key :: s.scheduled := by
  unfold scheduleBackgroundRefresh
  split <;> rfl

/-- The rate-limited branch of `fetchPrices` in one equation. -/
theorem fetchPrices_rateLimited_eq (s : PriceState) (assets : List String) (now : ℤ)
    (h1 : isStale s (priceKey assets) now = true)
    (h2 : mget s.inflight (priceKey assets) = none)
    (h3 : (tryConsumeToken s.tokens s.lastRefill now).1 = false) :
    fetchPrices s assets now
      = ((match mget s.cache (priceKey assets) with
          | some e => PriceOutcome.rateLimited e.data
          | none => PriceOutcome.rateLimited FALLBACK),
         scheduleBackgroundRefresh (priceKey assets)
           { s with tokens := (tryConsumeToken s.tokens s.lastRefill now).2.1,
                    lastRefill := (tryConsumeToken s.tokens s.lastRefill now).2.2 }) := by
  cases hm : mget s.cache (priceKey assets) with
  | none => simp [fetchPrices, hm, fetchPricesSlow, h2, h3]
  | some e =>
    have hlt : ¬ (now - e.ts < PRICE_CACHE_TTL_MS) := by
      unfold isStale at h1
      rw [hm] at h1
      simp only [decide_eq_true_eq] at h1
      omega
    simp [fetchPrices, hm, if_neg hlt, fetchPricesSlow, h2, h3]

/-- **C3.** Rate-limited price fetch: with no fresh entry, no in-flight
fetch and no token, the call immediately returns the last cached value
(the static fallback map when none exists), touches neither the cache nor
the in-flight table, only refills the bucket and marks the key scheduled —
and a second rate-limited call for the same key schedules nothing new. -/
theorem fetchPrices_rateLimited_spec (s : PriceState) (assets : List String)
    (now now2 : ℤ)
    (h1 : isStale s (priceKey assets) now = true)
    (h2 : mget s.inflight (priceKey assets) = none)
    (h3 : (tryConsumeToken s.tokens s.lastRefill now).1 = false)
    (h4 : isStale (fetchPrices s assets now).2 (priceKey assets) now2 = true)
    (h5 : (tryConsumeToken (fetchPrices s assets now).2.tokens
            (fetchPrices s assets now).2.lastRefill now2).1 = false) :
    fetchPrices s assets now
      = ((match mget s.cache (priceKey assets) with
          | some e => PriceOutcome.rateLimited e.data
          | none => PriceOutcome.rateLimited FALLBACK),
         scheduleBackgroundRefresh (priceKey assets)
           { s with tokens := (tryConsumeToken s.tokens s.lastRefill now).2.1,
                    lastRefill := (tryConsumeToken s.tokens s.lastRefill now).2.2 })
    ∧ (fetchPrices s assets now).2.inflight = s.inflight
    ∧ (fetchPrices s assets now).2.cache = s.cache
    ∧ (fetchPrices s assets now).2.scheduled
        = (if priceKey assets ∈ s.scheduled then s.scheduled
           else priceKey assets :: s.scheduled)
    ∧ (fetchPrices (fetchPrices s assets now).2 assets now2).2.scheduled
        = (fetchPrices s assets now).2.scheduled := by
  have heq := fetchPrices_rateLimited_eq s assets now h1 h2 h3
  have hin : (fetchPrices s assets now).2.inflight = s.inflight := by
    rw [heq]
    exact scheduleBackgroundRefresh_inflight _ _
  have hca : (fetchPrices s assets now).2.cache = s.cache := by
    rw [heq]
    exact scheduleBackgroundRefresh_cache _ _
  have hsch : (fetchPrices s assets now).2.scheduled
      = (if priceKey assets ∈ s.scheduled then s.scheduled
         else priceKey assets :: s.scheduled) := by
    rw [heq]
    exact scheduleBackgroundRefresh_scheduled _ _
  have hmem2 : priceKey assets ∈ (fetchPrices s assets now).2.scheduled := by
    rw [hsch]
    split <;> simp_all
  have h2' : mget (fetchPrices s assets now).2.inflight (priceKey assets) = none := by
    rw [hin]
    exact h2
  have heq2 := fetchPrices_rateLimited_eq (fetchPrices s assets now).2 assets now2 h4 h2' h5
  refine ⟨heq, hin, hca, hsch, ?_⟩
  rw [heq2]
  exact (scheduleBackgroundRefresh_scheduled _ _).trans (if_pos hmem2)

/-- Witness for C3: empty cache, empty bucket, two immediate calls for
`["bitcoin","ethereum"]`. -/
theorem fetchPrices_rateLimited_witness :
    fetchPrices ⟨[], [], [], 0, 0, 0⟩ ["bitcoin", "ethereum"] 0
      = ((match mget ([] : List (String × PriceEntry)) (priceKey ["bitcoin", "ethereum"]) with
          | some e => PriceOutcome.rateLimited e.data
          | none => PriceOutcome.rateLimited FALLBACK),
         scheduleBackgroundRefresh (priceKey ["bitcoin", "ethereum"])
           { cache := [], inflight := [], scheduled := [],
             tokens := (tryConsumeToken 0 0 0).2.1,
             lastRefill := (tryConsumeToken 0 0 0).2.2, nextPid := 0 })
    ∧ (fetchPrices ⟨[], [], [], 0, 0, 0⟩ ["bitcoin", "ethereum"] 0).2.inflight = []
    ∧ (fetchPrices ⟨[], [], [], 0, 0, 0⟩ ["bitcoin", "ethereum"] 0).2.cache = []
    ∧ (fetchPrices ⟨[], [], [], 0, 0, 0⟩ ["bitcoin", "ethereum"] 0).2.scheduled
        = (if priceKey ["bitcoin", "ethereum"] ∈ ([] : List String) then ([] : List String)
           else [priceKey ["bitcoin", "ethereum"]])
    ∧ (fetchPrices (fetchPrices ⟨[], [], [], 0, 0, 0⟩ ["bitcoin", "ethereum"] 0).2
          ["bitcoin", "ethereum"] 0).2.scheduled
        = (fetchPrices ⟨[], [], [], 0, 0, 0⟩ ["bitcoin", "ethereum"] 0).2.scheduled :=
  fetchPrices_rateLimited_spec ⟨[], [], [], 0, 0, 0⟩ ["bitcoin", "ethereum"] 0 0
    (by decide) (by decide) (by decide) (by decide) (by decide)

/-! ## RetryingFetcher theorems -/

/-- A 2xx response is in particular not a 429. -/
theorem respOk_ne429 (r : UpstreamResponse) (h : respOk r = true) :
    (r.status != 429) = true := by
  simp only [respOk, Bool.and_eq_true, decide_eq_true_eq] at h
  simp only [bne_iff_ne, ne_eq]
  omega

/-- A 2xx response at attempt `i` returns immediately. -/
theorem fwbGo_ok (rs : ℕ → UpstreamResponse) (i : ℕ) (last : Option String) (n : ℕ)
    (hok : respOk (rs i) = true) :
    fetchWithBackoffGo rs i last (n + 1) = .ok i := by
  simp [fetchWithBackoffGo, hok, respOk_ne429 _ hok]

/-- A non-2xx response at attempt `i` retries at attempt `i + 1`. -/
theorem fwbGo_retry (rs : ℕ → UpstreamResponse) (i : ℕ) (last : Option String) (n : ℕ)
    (hfail : respOk (rs i) = false) :
    fetchWithBackoffGo rs i last (n + 1)
      = fetchWithBackoffGo rs (i + 1)
          (some ("CoinGecko error: " ++ toString (rs i).status)) n := by
  simp [fetchWithBackoffGo, hfail]

/-- **C4 counterexample.** The original claim says a 4xx status other than
429 is returned immediately without retry; but on a 404 first response
`fetchWithBackoff` retries and returns the second (200) response instead
of the first. -/
theorem fetchWithBackoff_counterexample :
    fetchWithBackoff (fun i => if i = 0 then ⟨404, none⟩ else ⟨200, none⟩) 3
        = .ok 1
    ∧ fetchWithBackoff (fun i => if i = 0 then ⟨404, none⟩ else ⟨200, none⟩) 3
        ≠ .ok 0 := by
  have he : fetchWithBackoff (fun i => if i = 0 then ⟨404, none⟩ else ⟨200, none⟩) 3
      = Except.ok 1 := rfl
  exact ⟨he, fun h => absurd (Except.ok.inj (he.symm.trans h)) (by decide)⟩

/-- **C4 (amended).** `fetchWithBackoff` returns the first 2xx response
immediately and without further fetches; every non-2xx response — 429 and
5xx, but also 3xx and 4xx other than 429 — triggers a backoff delay and a
retry; after all 3 attempts fail it throws an upstream error carrying the
last status; the backoff honours a `Retry-After` hint with a 400 ms
minimum, and otherwise uses exponential backoff `1200 * 2^i` capped at
5000 ms plus random jitter. -/
theorem fetchWithBackoff_spec (rs1 rs2 rs3 : ℕ → UpstreamResponse) (st i : ℕ)
    (ra jitter : ℚ)
    (h1 : respOk (rs1 0) = true)
    (h2 : ∀ j, j < 3 → respOk (rs2 j) = false)
    (h3 : respOk (rs3 0) = false)
    (h4 : respOk (rs3 1) = true) :
    fetchWithBackoff rs1 3 = .ok 0
    ∧ fetchWithBackoff rs2 3
        = .error ("CoinGecko error: " ++ toString (rs2 2).status)
    ∧ fetchWithBackoff rs3 3 = .ok 1
    ∧ backoffDelay ⟨st, some ra⟩ i jitter = max 400 (ra * 1000)
    ∧ 400 ≤ backoffDelay ⟨st, some ra⟩ i jitter
    ∧ backoffDelay ⟨st, none⟩ i jitter = min (1200 * 2 ^ i) 5000 + jitter := by
  refine ⟨?_, ?_, ?_, rfl, le_max_left _ _, rfl⟩
  · exact fwbGo_ok rs1 0 none 2 h1
  · exact (fwbGo_retry rs2 0 none 2 (h2 0 (by omega))).trans
      ((fwbGo_retry rs2 1 _ 1 (h2 1 (by omega))).trans
        ((fwbGo_retry rs2 2 _ 0 (h2 2 (by omega))).trans rfl))
  · exact (fwbGo_retry rs3 0 none 2 h3).trans (fwbGo_ok rs3 1 _ 1 h4)

/-- Witness for C4: a 200 sequence, a constant-503 sequence, and a 404
followed by a 200. -/
theorem fetchWithBackoff_spec_witness :
    fetchWithBackoff (fun _ => ⟨200, none⟩) 3 = .ok 0
    ∧ fetchWithBackoff (fun _ => ⟨503, none⟩) 3
        = .error ("CoinGecko error: "
            ++ toString ((fun _ => (⟨503, none⟩ : UpstreamResponse)) 2).status)
    ∧ fetchWithBackoff (fun i => if i = 0 then ⟨404, none⟩ else ⟨200, none⟩) 3
        = .ok 1
    ∧ backoffDelay ⟨429, some 2⟩ 1 0 = max 400 (2 * 1000)
    ∧ 400 ≤ backoffDelay ⟨429, some 2⟩ 1 0
    ∧ backoffDelay ⟨429, none⟩ 1 0 = min (1200 * 2 ^ 1) 5000 + 0 :=
  fetchWithBackoff_spec (fun _ => ⟨200, none⟩) (fun _ => ⟨503, none⟩)
    (fun i => if i = 0 then ⟨404, none⟩ else ⟨200, none⟩) 429 1 2 0
    (by decide) (by decide) (by decide) (by decide)

/-! ## StickyUserStore theorems: the throttled manual refresh -/

/-- **C5 counterexample.** The original claim says the throttled response
has shape `{ tooSoon: true, retryAfterMs, items, updatedAt }`; the body the
handler actually sends has no `tooSoon` field at all (it is
`{ error: "Too soon", retryAfterMs, items, updatedAt }` on HTTP 429). -/
theorem refreshNews_tooSoon_counterexample :
    mget (refreshNewsHandler 500 ⟨[("u", ⟨FALLBACK_NEWS, 500, 1000⟩)], []⟩
        "u" 2000 none (fun _ => none)).1.body "tooSoon" = none
    ∧ (refreshNewsHandler 500 ⟨[("u", ⟨FALLBACK_NEWS, 500, 1000⟩)], []⟩
        "u" 2000 none (fun _ => none)).1.status = 429 := by
  constructor
  · rfl
  · rfl

/-- **C5 (amended).** A second refresh arriving less than `minInterval`
(30 000 ms) after the user's `lastRefreshAt` performs no upstream fetch and
leaves the whole news state (stored record, `updatedAt`, `lastRefreshAt`
and the shared query cache) unchanged; it answers with HTTP status 429 and
body `{ error: "Too soon", retryAfterMs, items, updatedAt }` — carrying
the user's current stored items — where `retryAfterMs > 0`. -/
theorem refreshNews_tooSoon_spec (maxUsers : ℕ) (sys : NewsSystem) (uid : String)
    (now : ℤ) (prefs : Option Prefs) (pageFetch : ℕ → Option (List RawNewsItem))
    (h : now - (getUserNews sys.userNews uid).lastRefreshAt
          < NEWS_REFRESH_MIN_INTERVAL_MS) :
    refreshNewsHandler maxUsers sys uid now prefs pageFetch
      = ({ status := 429
           body := [("error", .jstr "Too soon"),
                    ("retryAfterMs", .jnum (NEWS_REFRESH_MIN_INTERVAL_MS
                        - (now - (getUserNews sys.userNews uid).lastRefreshAt))),
                    ("items", .jitems (getUserNews sys.userNews uid).items),
                    ("updatedAt", .jnum (getUserNews sys.userNews uid).updatedAt)] },
         sys)
    ∧ 0 < NEWS_REFRESH_MIN_INTERVAL_MS
        - (now - (getUserNews sys.userNews uid).lastRefreshAt) := by
  refine ⟨?_, by omega⟩
  simp only [refreshNewsHandler, if_pos h]

/-- Witness for C5: a user whose last refresh was 1000 ms before the
second call. -/
theorem refreshNews_tooSoon_spec_witness :
    refreshNewsHandler 500 ⟨[("u", ⟨FALLBACK_NEWS, 500, 1000⟩)], []⟩ "u" 2000 none
        (fun _ => none)
      = ({ status := 429
           body := [("error", .jstr "Too soon"),
                    ("retryAfterMs", .jnum (NEWS_REFRESH_MIN_INTERVAL_MS
                        - (2000 - (getUserNews [("u", ⟨FALLBACK_NEWS, 500, 1000⟩)]
                            "u").lastRefreshAt))),
                    ("items", .jitems (getUserNews [("u", ⟨FALLBACK_NEWS, 500, 1000⟩)]
                        "u").items),
                    ("updatedAt", .jnum (getUserNews [("u", ⟨FALLBACK_NEWS, 500, 1000⟩)]
                        "u").updatedAt)] },
         ⟨[("u", ⟨FALLBACK_NEWS, 500, 1000⟩)], []⟩)
    ∧ 0 < NEWS_REFRESH_MIN_INTERVAL_MS
        - (2000 - (getUserNews [("u", ⟨FALLBACK_NEWS, 500, 1000⟩)] "u").lastRefreshAt) :=
  refreshNews_tooSoon_spec 500 ⟨[("u", ⟨FALLBACK_NEWS, 500, 1000⟩)], []⟩ "u" 2000 none
    (fun _ => none) (by decide)

/-! ## `fetchNews` and refresh-success theorems -/

theorem FALLBACK_NEWS_ne_nil : FALLBACK_NEWS ≠ [] := by
  simp [FALLBACK_NEWS]

theorem length_insDesc (x : NewsItem × ℚ) (l : List (NewsItem × ℚ)) :
    (insDesc x l).length = l.length + 1 := by
  induction l with
  | nil => rfl
  | cons y ys ih =>
    unfold insDesc
    split <;> simp [ih]

theorem length_foldl_insDesc (l acc : List (NewsItem × ℚ)) :
    (l.foldl (fun acc x => insDesc x acc) acc).length = acc.length + l.length := by
  induction l generalizing acc with
  | nil => simp
  | cons y ys ih =>
    simp only [List.foldl_cons, ih, length_insDesc, List.length_cons]
    omega

theorem length_sortByScoreDesc (l : List (NewsItem × ℚ)) :
    (sortByScoreDesc l).length = l.length := by
  unfold sortByScoreDesc
  simp [length_foldl_insDesc]

/-- `personalizeNews` keeps `min 60 n` of its `n` input items. -/
theorem length_personalizeNews (now : ℤ) (items : List NewsItem) (prefs : Prefs) :
    (personalizeNews now items prefs).length = min 60 items.length := by
  unfold personalizeNews
  simp [length_sortByScoreDesc]

theorem personalizeNews_fallback_ne_nil (now : ℤ) (prefs : Prefs) :
    personalizeNews now FALLBACK_NEWS prefs ≠ [] := by
  intro h
  have := length_personalizeNews now FALLBACK_NEWS prefs
  rw [h] at this
  simp [FALLBACK_NEWS] at this

/-- When every page fetch fails, the page loop gathers nothing. -/
theorem fetchNewsLoop_allFail (pageFetch : ℕ → Option (List RawNewsItem))
    (hfail : ∀ pg, pageFetch pg = none) (p n : ℕ) :
    fetchNewsLoop pageFetch p n = [] := by
  cases n with
  | zero => rfl
  | succ m => simp [fetchNewsLoop, hfail p]

/-- The miss path never produces an empty list. -/
theorem fetchNewsMiss_ne_nil (cache : NewsCache) (q : NewsQuery) (now : ℤ)
    (f : ℕ → Option (List RawNewsItem)) : (fetchNewsMiss cache q now f).1 ≠ [] := by
  unfold fetchNewsMiss
  by_cases h : (fetchNewsLoop f q.page q.pages).isEmpty
  · simp only [h, if_true]
    exact FALLBACK_NEWS_ne_nil
  · simp only [h, if_false]
    simp only [List.isEmpty_iff] at h
    exact h

/-- `fetchNews` never returns an empty list when every cached entry is
non-empty. -/
theorem fetchNews_ne_nil (cache : NewsCache) (q : NewsQuery) (now : ℤ)
    (f : ℕ → Option (List RawNewsItem))
    (hinv : ∀ q' p, mget cache q' = some p → p.2 ≠ []) :
    (fetchNews cache q now f).1 ≠ [] := by
  unfold fetchNews
  cases hm : mget cache q with
  | none => exact fetchNewsMiss_ne_nil cache q now f
  | some c =>
    by_cases hfr : now - c.1 < NEWS_TTL_MS
    · simp only [if_pos hfr]
      exact hinv q c hm
    · simp only [if_neg hfr]
      exact fetchNewsMiss_ne_nil cache q now f

/-- On a cache miss with every page failing, `fetchNews` caches and returns
the static fallback list. -/
theorem fetchNews_allFail_eq (cache : NewsCache) (q : NewsQuery) (now : ℤ)
    (pageFetch : ℕ → Option (List RawNewsItem))
    (hfail : ∀ pg, pageFetch pg = none) (hmiss : mget cache q = none) :
    fetchNews cache q now pageFetch = (FALLBACK_NEWS, mset cache q (now, FALLBACK_NEWS)) := by
  unfold fetchNews
  rw [hmiss]
  unfold fetchNewsMiss
  rw [fetchNewsLoop_allFail pageFetch hfail q.page q.pages]
  rfl

/-- Reading back the record just written by `setUserNews`. -/
theorem getUserNews_setUserNews_self (m : ℕ) (store : List (String × UserNewsRec))
    (uid : String) (items : List NewsItem) (now : ℤ) :
    getUserNews (setUserNews m store uid items now) uid
      = ⟨if items.isEmpty then FALLBACK_NEWS else items, now, now⟩ := by
  unfold getUserNews setUserNews
  rw [mget_mset_self]
  rfl

/-- The success path of the refresh handler when every upstream page
fails: the handler still responds 200 and replaces the user's sticky items
with the personalized fallback list. -/
theorem refreshNews_allFail_eq (maxUsers : ℕ) (sys : NewsSystem) (uid : String)
    (now : ℤ) (prefs : Prefs) (pageFetch : ℕ → Option (List RawNewsItem))
    (hfail : ∀ pg, pageFetch pg = none) (hce : sys.newsCache = [])
    (hns : ¬ (now - (getUserNews sys.userNews uid).lastRefreshAt
            < NEWS_REFRESH_MIN_INTERVAL_MS)) :
    (refreshNewsHandler maxUsers sys uid now (some prefs) pageFetch).2.userNews
      = setUserNews maxUsers sys.userNews uid
          (personalizeNews now FALLBACK_NEWS prefs) now
    ∧ (refreshNewsHandler maxUsers sys uid now (some prefs) pageFetch).1.status
      = 200 := by
  have e1 := fetchNews_allFail_eq []
    ⟨1, 1, "news", none, "en", some (toCpSymbols prefs.assets)⟩ now pageFetch hfail rfl
  have e2 := fetchNews_allFail_eq [] ⟨1, 1, "news", none, "en", none⟩ now pageFetch
    hfail rfl
  by_cases hc : toCpSymbols prefs.assets ≠ ""
  · constructor <;>
      simp [refreshNewsHandler, if_neg hns, hce, if_pos hc, e1, FALLBACK_NEWS_ne_nil]
  · constructor <;>
      simp [refreshNewsHandler, if_neg hns, hce, if_neg hc, e2, FALLBACK_NEWS_ne_nil]

/-- **C10.** `fetchNews` is total and never empty: with every cached entry
non-empty it returns a non-empty list for every query and page oracle; a
per-page failure ends pagination keeping what was gathered, and when
nothing was gathered the static fallback list is cached and returned; and
a manual refresh whose upstream pages all fail still completes with HTTP
200, replacing the user's sticky items with the fallback-derived
personalized list and resetting `lastRefreshAt` to the refresh time. -/
theorem fetchNews_fallback_spec (cache : NewsCache) (qAny q : NewsQuery) (now : ℤ)
    (anyFetch pageFetch : ℕ → Option (List RawNewsItem)) (maxUsers : ℕ)
    (sys : NewsSystem) (uid : String) (prefs : Prefs)
    (hinv : ∀ q' p, mget cache q' = some p → p.2 ≠ [])
    (hfail : ∀ pg, pageFetch pg = none)
    (hmiss : mget cache q = none)
    (hce : sys.newsCache = [])
    (hns : NEWS_REFRESH_MIN_INTERVAL_MS
            ≤ now - (getUserNews sys.userNews uid).lastRefreshAt) :
    (fetchNews cache qAny now anyFetch).1 ≠ []
    ∧ fetchNews cache q now pageFetch
        = (FALLBACK_NEWS, mset cache q (now, FALLBACK_NEWS))
    ∧ (refreshNewsHandler maxUsers sys uid now (some prefs) pageFetch).1.status = 200
    ∧ (getUserNews (refreshNewsHandler maxUsers sys uid now
          (some prefs) pageFetch).2.userNews uid).items
        = personalizeNews now FALLBACK_NEWS prefs
    ∧ personalizeNews now FALLBACK_NEWS prefs ≠ []
    ∧ (getUserNews (refreshNewsHandler maxUsers sys uid now
          (some prefs) pageFetch).2.userNews uid).lastRefreshAt = now := by
  have h12 := refreshNews_allFail_eq maxUsers sys uid now prefs pageFetch hfail hce
    (by omega)
  have hne := personalizeNews_fallback_ne_nil now prefs
  have hie : (personalizeNews now FALLBACK_NEWS prefs).isEmpty = false := by
    cases hpn : personalizeNews now FALLBACK_NEWS prefs with
    | nil => exact absurd hpn hne
    | cons a l => rfl
  refine ⟨fetchNews_ne_nil cache qAny now anyFetch hinv,
    fetchNews_allFail_eq cache q now pageFetch hfail hmiss, h12.2, ?_, hne, ?_⟩
  · rw [h12.1, getUserNews_setUserNews_self, hie]
    rfl
  · rw [h12.1, getUserNews_setUserNews_self]

/-- Witness for C10: empty caches, a user last refreshed at time 0,
refreshing at `now = 30000` with an oracle that always fails. -/
theorem fetchNews_fallback_spec_witness :
    (fetchNews [] ⟨1, 1, "news", none, "en", none⟩ 30000 (fun _ => none)).1 ≠ []
    ∧ fetchNews [] ⟨1, 1, "news", none, "en", none⟩ 30000 (fun _ => none)
        = (FALLBACK_NEWS,
           mset [] ⟨1, 1, "news", none, "en", none⟩ (30000, FALLBACK_NEWS))
    ∧ (refreshNewsHandler 500 ⟨[], []⟩ "u" 30000 (some ⟨[], ""⟩)
          (fun _ => none)).1.status = 200
    ∧ (getUserNews (refreshNewsHandler 500 ⟨[], []⟩ "u" 30000 (some ⟨[], ""⟩)
          (fun _ => none)).2.userNews "u").items
        = personalizeNews 30000 FALLBACK_NEWS ⟨[], ""⟩
    ∧ personalizeNews 30000 FALLBACK_NEWS ⟨[], ""⟩ ≠ []
    ∧ (getUserNews (refreshNewsHandler 500 ⟨[], []⟩ "u" 30000 (some ⟨[], ""⟩)
          (fun _ => none)).2.userNews "u").lastRefreshAt = 30000 :=
  fetchNews_fallback_spec [] ⟨1, 1, "news", none, "en", none⟩
    ⟨1, 1, "news", none, "en", none⟩ 30000 (fun _ => none) (fun _ => none) 500
    ⟨[], []⟩ "u" ⟨[], ""⟩ (fun _ _ h => Option.noConfusion h) (fun _ => rfl) rfl rfl
    (by decide)

/-! ## PeriodicInsightCache theorems -/

theorem nat_sub_div_self (x d : ℕ) (hd : 0 < d) (hx : d ≤ x) :
    (x - d) / d = x / d - 1 := by
  have h1 : (x - d + d) / d = (x - d) / d + 1 := Nat.add_div_right _ hd
  rw [Nat.sub_add_cancel hx] at h1
  rw [h1, Nat.add_sub_cancel]

/-- Reading back the record just written by `setUserAi`. -/
theorem mget_setUserAi_self (m : ℕ) (cache : List (String × AiRec)) (uid : String)
    (rec : AiRec) : mget (setUserAi m cache uid rec) uid = some rec := by
  unfold setUserAi
  exact mget_mset_self _ _ _

/-- **C6.** Period key and daily caching: before the cutoff hour the
period key is the previous local calendar day, from the cutoff hour on it
is today's (fixed-offset time-zone model, `offMs` milliseconds east of
UTC); a first `getDailyAiInsight` call for an unknown user invokes the
compute function and caches its item under the current period key; a
second call while the period key is unchanged returns the identical item
without invoking the compute function and without touching the cache; and
a call after the clock has crossed into a new period invokes the compute
function again. -/
theorem getDailyAiInsight_period (maxUsers offMs : ℕ)
    (cache : List (String × AiRec)) (uid : String) (tA tB t1 t2 t3 : ℕ)
    (item item3 : AiItem) (anyCompute : Option AiItem) (fi1 fi2 fi3 : ℕ)
    (hA : getHourInTz offMs tA < AI_INSIGHT_CUTOFF_HOUR)
    (hAday : 24 * 60 * 60 * 1000 ≤ tA)
    (hB : AI_INSIGHT_CUTOFF_HOUR ≤ getHourInTz offMs tB)
    (h0 : mget cache uid = none)
    (hsame : currentPeriodKey offMs t2 = currentPeriodKey offMs t1)
    (hdiff : currentPeriodKey offMs t3 ≠ currentPeriodKey offMs t1) :
    currentPeriodKey offMs tA = formatDayKey offMs tA - 1
    ∧ currentPeriodKey offMs tB = formatDayKey offMs tB
    ∧ getDailyAiInsight maxUsers offMs cache uid t1 (some item) fi1
        = (item,
           setUserAi maxUsers cache uid ⟨currentPeriodKey offMs t1, item, t1⟩,
           true)
    ∧ getDailyAiInsight maxUsers offMs
          (setUserAi maxUsers cache uid ⟨currentPeriodKey offMs t1, item, t1⟩)
          uid t2 anyCompute fi2
        = (item,
           setUserAi maxUsers cache uid ⟨currentPeriodKey offMs t1, item, t1⟩,
           false)
    ∧ (getDailyAiInsight maxUsers offMs
          (setUserAi maxUsers cache uid ⟨currentPeriodKey offMs t1, item, t1⟩)
          uid t3 (some item3) fi3).2.2 = true := by
  refine ⟨?_, ?_, ?_, ?_, ?_⟩
  · unfold currentPeriodKey
    rw [if_pos hA]
    unfold formatDayKey
    have hsub : tA - 24 * 60 * 60 * 1000 + offMs = tA + offMs - 86400000 := by omega
    rw [hsub, nat_sub_div_self (tA + offMs) 86400000 (by omega) (by omega)]
  · unfold currentPeriodKey
    rw [if_neg (by omega)]
  · simp [getDailyAiInsight, h0, getDailyAiInsightCompute]
  · simp [getDailyAiInsight, mget_setUserAi_self, hsame]
  · simp only [getDailyAiInsight, mget_setUserAi_self, getDailyAiInsightCompute]
    rw [if_neg (fun h => hdiff h.symm)]

/-- Witness for C6: offset +2 h (the configured zone's standard offset),
a pre-cutoff instant (local 02:00) and a post-cutoff instant (local
08:00); calls at local 08:00 and 09:00 share a period, a call 24 h later
is a new period. -/
theorem getDailyAiInsight_period_witness :
    currentPeriodKey 7200000 172800000 = formatDayKey 7200000 172800000 - 1
    ∧ currentPeriodKey 7200000 194400000 = formatDayKey 7200000 194400000
    ∧ getDailyAiInsight 1000 7200000 [] "u" 194400000 (some ⟨"ai-1", "x"⟩) 0
        = (⟨"ai-1", "x"⟩,
           setUserAi 1000 [] "u" ⟨currentPeriodKey 7200000 194400000, ⟨"ai-1", "x"⟩,
             194400000⟩,
           true)
    ∧ getDailyAiInsight 1000 7200000
          (setUserAi 1000 [] "u" ⟨currentPeriodKey 7200000 194400000, ⟨"ai-1", "x"⟩,
            194400000⟩)
          "u" 198000000 none 1
        = (⟨"ai-1", "x"⟩,
           setUserAi 1000 [] "u" ⟨currentPeriodKey 7200000 194400000, ⟨"ai-1", "x"⟩,
             194400000⟩,
           false)
    ∧ (getDailyAiInsight 1000 7200000
          (setUserAi 1000 [] "u" ⟨currentPeriodKey 7200000 194400000, ⟨"ai-1", "x"⟩,
            194400000⟩)
          "u" 280800000 (some ⟨"ai-2", "y"⟩) 2).2.2 = true :=
  getDailyAiInsight_period 1000 7200000 [] "u" 172800000 194400000 194400000
    198000000 280800000 ⟨"ai-1", "x"⟩ ⟨"ai-2", "y"⟩ none 0 1 2
    (by decide) (by decide) (by decide) (by decide) (by decide) (by decide)

/-! ## LRU eviction theorems -/

theorem mget_isSome_of_mem {κ α : Type} [DecidableEq κ] {l : List (κ × α)} {k : κ}
    {v : α} (h : (k, v) ∈ l) : mhas l k = true := by
  induction l with
  | nil => simp at h
  | cons hd t ih =>
    obtain ⟨k1, w1⟩ := hd
    by_cases hk : k1 = k
    · simp [mhas, mget, hk]
    · rcases List.mem_cons.mp h with he | ht
      · exact absurd (congrArg Prod.fst he).symm hk
      · simpa [mhas, mget, hk] using ih ht

theorem mget_eq_of_mem_nodup {κ α : Type} [DecidableEq κ] {l : List (κ × α)} {k : κ}
    {v : α} (h : (k, v) ∈ l) (hn : (l.map Prod.fst).Nodup) : mget l k = some v := by
  induction l with
  | nil => simp at h
  | cons hd t ih =>
    obtain ⟨k1, w1⟩ := hd
    simp only [List.map_cons, List.nodup_cons] at hn
    rcases List.mem_cons.mp h with he | ht
    · obtain ⟨hk, hv⟩ := Prod.mk.injEq .. ▸ he.symm
      subst hk
      simp [mget, hv]
    · have hk : k1 ≠ k := by
        intro hkk
        subst hkk
        exact hn.1 (List.mem_map_of_mem Prod.fst ht)
      simp only [mget_cons, if_neg hk]
      exact ih ht hn.2

/-- The eviction scan starting from candidate `(k0, v0)` lands on the key
of an entry of minimal timestamp among the candidate and the scanned
entries. -/
theorem oldestKeyBy_fold_spec {α β : Type} [LinearOrder β] (ts : α → β)
    (l : List (String × α)) : ∀ (k0 : String) (v0 : α),
    ∃ k v,
      (List.foldl (oldestStep ts) (some k0, some (ts v0)) l).1 = some k
      ∧ ((k = k0 ∧ v = v0) ∨ (k, v) ∈ l)
      ∧ ts v ≤ ts v0
      ∧ ∀ p ∈ l, ts v ≤ ts p.2 := by
  induction l with
  | nil =>
    intro k0 v0
    exact ⟨k0, v0, rfl, Or.inl ⟨rfl, rfl⟩, le_refl _, by simp⟩
  | cons hd rest ih =>
    intro k0 v0
    obtain ⟨k1, w1⟩ := hd
    rw [List.foldl_cons]
    rcases lt_or_ge (ts w1) (ts v0) with h | h
    · have hstep : oldestStep ts (some k0, some (ts v0)) (k1, w1)
          = (some k1, some (ts w1)) := by
        simp [oldestStep, h]
      rw [hstep]
      obtain ⟨k, v, e1, e2, e3, e4⟩ := ih k1 w1
      refine ⟨k, v, e1, ?_, le_trans e3 (le_of_lt h), ?_⟩
      · rcases e2 with ⟨hk, hv⟩ | hmem
        · subst hk
          subst hv
          exact Or.inr (List.mem_cons_self _ _)
        · exact Or.inr (List.mem_cons_of_mem _ hmem)
      · intro p hp
        rcases List.mem_cons.mp hp with hph | hpt
        · rw [hph]
          exact e3
        · exact e4 p hpt
    · have hstep : oldestStep ts (some k0, some (ts v0)) (k1, w1)
          = (some k0, some (ts v0)) := by
        simp [oldestStep, not_lt.mpr h]
      rw [hstep]
      obtain ⟨k, v, e1, e2, e3, e4⟩ := ih k0 v0
      refine ⟨k, v, e1, ?_, e3, ?_⟩
      · rcases e2 with he | hmem
        · exact Or.inl he
        · exact Or.inr (List.mem_cons_of_mem _ hmem)
      · intro p hp
        rcases List.mem_cons.mp hp with hph | hpt
        · rw [hph]
          exact le_trans e3 h
        · exact e4 p hpt

/-- On a non-empty store, the eviction scan returns the key of an entry of
minimal timestamp. -/
theorem oldestKeyBy_spec {α β : Type} [LinearOrder β] (ts : α → β)
    (l : List (String × α)) (hne : l ≠ []) :
    ∃ k v, (oldestKeyBy ts l).1 = some k ∧ (k, v) ∈ l ∧ ∀ p ∈ l, ts v ≤ ts p.2 := by
  cases l with
  | nil => exact absurd rfl hne
  | cons hd rest =>
    obtain ⟨k1, w1⟩ := hd
    unfold oldestKeyBy
    rw [List.foldl_cons]
    have hstep : oldestStep ts (none, none) (k1, w1) = (some k1, some (ts w1)) := rfl
    rw [hstep]
    obtain ⟨k, v, e1, e2, e3, e4⟩ := oldestKeyBy_fold_spec ts rest k1 w1
    refine ⟨k, v, e1, ?_, ?_⟩
    · rcases e2 with ⟨hk, hv⟩ | hmem
      · subst hk
        subst hv
        exact List.mem_cons_self _ _
      · exact List.mem_cons_of_mem _ hmem
    · intro p hp
      rcases List.mem_cons.mp hp with hph | hpt
      · rw [hph]
        exact e3
      · exact e4 p hpt

/-- Inserting a previously-absent id into a full news store takes the
eviction branch. -/
theorem setUserNews_evict_eq (m : ℕ) (store : List (String × UserNewsRec))
    (uid kN : String) (items : List NewsItem) (now : ℤ)
    (hAbsent : mhas store uid = false) (hFull : m ≤ store.length)
    (hkN : (oldestKeyBy (fun v => v.updatedAt) store).1 = some kN) (hne : kN ≠ "") :
    setUserNews m store uid items now
      = mset (mdel store kN) uid
          ⟨if items.isEmpty then FALLBACK_NEWS else items, now, now⟩ := by
  unfold setUserNews
  rw [if_pos ⟨by simp [hAbsent], hFull⟩]
  simp only [hkN]
  rw [if_pos hne]

/-- Same for the AI store. -/
theorem setUserAi_evict_eq (m : ℕ) (store : List (String × AiRec))
    (uid kA : String) (rec : AiRec)
    (hAbsent : mhas store uid = false) (hFull : m ≤ store.length)
    (hkA : (oldestKeyBy (fun v => v.ts) store).1 = some kA) (hne : kA ≠ "") :
    setUserAi m store uid rec = mset (mdel store kA) uid rec := by
  unfold setUserAi
  rw [if_pos ⟨by simp [hAbsent], hFull⟩]
  simp only [hkA]
  rw [if_pos hne]

/-- One `setUserNews` step keeps a store within its capacity (capacity at
least 1, no empty-string user id stored: a falsy key would skip the
eviction in the JS guard `if (oldestKey)`). -/
theorem setUserNews_length_le (m : ℕ) (store : List (String × UserNewsRec))
    (uid : String) (items : List NewsItem) (now : ℤ)
    (hm : 1 ≤ m) (hlen : store.length ≤ m) (hkeys : ∀ kv ∈ store, kv.1 ≠ "") :
    (setUserNews m store uid items now).length ≤ m := by
  unfold setUserNews
  rw [length_mset]
  by_cases hcond : ¬ (mhas store uid = true) ∧ m ≤ store.length
  · rw [if_pos hcond]
    have hlen' : store.length = m := le_antisymm hlen hcond.2
    have hnil : store ≠ [] := by
      intro h
      rw [h] at hlen'
      simp at hlen'
      omega
    obtain ⟨k, v, e1, e2, e3⟩ := oldestKeyBy_spec (fun v => v.updatedAt) store hnil
    simp only [e1]
    rw [if_pos (hkeys (k, v) e2)]
    have hkmem : mhas store k = true := mget_isSome_of_mem e2
    have hdl : (mdel store k).length = store.length - 1 :=
      length_mdel_of_mhas store k hkmem
    by_cases h2 : mhas (mdel store k) uid = true
    · rw [if_pos h2, hdl]
      omega
    · rw [if_neg h2, hdl]
      omega
  · rw [if_neg hcond]
    by_cases h2 : mhas store uid = true
    · rw [if_pos h2]
      exact hlen
    · rw [if_neg h2]
      have h3 : ¬ (m ≤ store.length) := by
        intro hLe
        exact hcond ⟨h2, hLe⟩
      omega

/-- **C8.** LRU bound for the per-user stores (user ids are non-empty
strings and, as in a JS `Map`, keys are unique): writing a previously
absent id into a store at capacity evicts exactly the entry with minimal
last-write timestamp (`updatedAt` for the news store, `ts` for the AI
store) and keeps the size at the capacity; one write never pushes a store
beyond its capacity; and a write for an already-present id evicts
nothing. -/
theorem lru_eviction_spec (maxUsers : ℕ) (now : ℤ)
    (storeN : List (String × UserNewsRec)) (uid kN : String) (vN : UserNewsRec)
    (items : List NewsItem)
    (storeA : List (String × AiRec)) (uidA kA : String) (vA recA : AiRec)
    (storeB : List (String × UserNewsRec)) (uidB : String) (itemsB : List NewsItem)
    (storeP : List (String × AiRec)) (uidP : String) (recP : AiRec)
    (hNm : 1 ≤ maxUsers)
    (hN1 : mhas storeN uid = false) (hN2 : storeN.length = maxUsers)
    (hNnodup : (storeN.map Prod.fst).Nodup)
    (hkN : (oldestKeyBy (fun v => v.updatedAt) storeN).1 = some kN)
    (hvN : mget storeN kN = some vN) (hkNne : kN ≠ "")
    (hA1 : mhas storeA uidA = false) (hA2 : storeA.length = maxUsers)
    (hAnodup : (storeA.map Prod.fst).Nodup)
    (hkA : (oldestKeyBy (fun v => v.ts) storeA).1 = some kA)
    (hvA : mget storeA kA = some vA) (hkAne : kA ≠ "")
    (hB : storeB.length ≤ maxUsers) (hBkeys : ∀ kv ∈ storeB, kv.1 ≠ "")
    (hP : mhas storeP uidP = true) :
    setUserNews maxUsers storeN uid items now
        = mset (mdel storeN kN) uid
            ⟨if items.isEmpty then FALLBACK_NEWS else items, now, now⟩
    ∧ (setUserNews maxUsers storeN uid items now).length = maxUsers
    ∧ storeN.Forall (fun p => vN.updatedAt ≤ p.2.updatedAt)
    ∧ setUserAi maxUsers storeA uidA recA = mset (mdel storeA kA) uidA recA
    ∧ (setUserAi maxUsers storeA uidA recA).length = maxUsers
    ∧ storeA.Forall (fun p => vA.ts ≤ p.2.ts)
    ∧ (setUserNews maxUsers storeB uidB itemsB now).length ≤ maxUsers
    ∧ setUserAi maxUsers storeP uidP recP = mset storeP uidP recP := by
  have hkNmem : mhas storeN kN = true := by simp [mhas, hvN]
  have hkAmem : mhas storeA kA = true := by simp [mhas, hvA]
  have hneqN : uid ≠ kN := by
    intro h
    subst h
    rw [hN1] at hkNmem
    exact Bool.noConfusion hkNmem
  have hneqA : uidA ≠ kA := by
    intro h
    subst h
    rw [hA1] at hkAmem
    exact Bool.noConfusion hkAmem
  have heqN := setUserNews_evict_eq maxUsers storeN uid kN items now hN1
    (le_of_eq hN2.symm) hkN hkNne
  have heqA := setUserAi_evict_eq maxUsers storeA uidA kA recA hA1
    (le_of_eq hA2.symm) hkA hkAne
  have hnilN : storeN ≠ [] := by
    intro h
    rw [h] at hN2
    simp at hN2
    omega
  have hnilA : storeA ≠ [] := by
    intro h
    rw [h] at hA2
    simp at hA2
    omega
  refine ⟨heqN, ?_, ?_, heqA, ?_, ?_, ?_, ?_⟩
  · rw [heqN, length_mset]
    have hdN : mhas (mdel storeN kN) uid = false := by
      unfold mhas
      rw [mget_mdel_ne storeN kN uid (fun h => hneqN h.symm)]
      exact hN1
    rw [hdN]
    simp only [Bool.false_eq_true, if_false]
    rw [length_mdel_of_mhas storeN kN hkNmem]
    omega
  · obtain ⟨k, v, e1, e2, e3⟩ := oldestKeyBy_spec (fun v => v.updatedAt) storeN hnilN
    have hkk : k = kN := by
      rw [e1] at hkN
      exact Option.some.inj hkN
    subst hkk
    have hvv : v = vN := by
      have hmv := mget_eq_of_mem_nodup e2 hNnodup
      rw [hmv] at hvN
      exact Option.some.inj hvN
    subst hvv
    rw [List.forall_iff_forall_mem]
    exact e3
  · rw [heqA, length_mset]
    have hdA : mhas (mdel storeA kA) uidA = false := by
      unfold mhas
      rw [mget_mdel_ne storeA kA uidA (fun h => hneqA h.symm)]
      exact hA1
    rw [hdA]
    simp only [Bool.false_eq_true, if_false]
    rw [length_mdel_of_mhas storeA kA hkAmem]
    omega
  · obtain ⟨k, v, e1, e2, e3⟩ := oldestKeyBy_spec (fun v => v.ts) storeA hnilA
    have hkk : k = kA := by
      rw [e1] at hkA
      exact Option.some.inj hkA
    subst hkk
    have hvv : v = vA := by
      have hmv := mget_eq_of_mem_nodup e2 hAnodup
      rw [hmv] at hvA
      exact Option.some.inj hvA
    subst hvv
    rw [List.forall_iff_forall_mem]
    exact e3
  · exact setUserNews_length_le maxUsers storeB uidB itemsB now hNm hB hBkeys
  · unfold setUserAi
    rw [if_neg (fun hc => hc.1 hP)]

/-- Witness for C8: capacity 2; full news and AI stores receiving a new
id (the older entry, `"b"` resp. `"y"`, is evicted); an empty store
receiving a write; a present-id overwrite. -/
theorem lru_eviction_spec_witness :
    setUserNews 2 [("a", ⟨FALLBACK_NEWS, 5, 5⟩), ("b", ⟨FALLBACK_NEWS, 3, 3⟩)]
        "c" [] 100
      = mset (mdel [("a", ⟨FALLBACK_NEWS, 5, 5⟩), ("b", ⟨FALLBACK_NEWS, 3, 3⟩)] "b")
          "c" ⟨if ([] : List NewsItem).isEmpty then FALLBACK_NEWS else [], 100, 100⟩
    ∧ (setUserNews 2 [("a", ⟨FALLBACK_NEWS, 5, 5⟩), ("b", ⟨FALLBACK_NEWS, 3, 3⟩)]
        "c" [] 100).length = 2
    ∧ ([("a", (⟨FALLBACK_NEWS, 5, 5⟩ : UserNewsRec)),
        ("b", ⟨FALLBACK_NEWS, 3, 3⟩)]).Forall
        (fun p => (⟨FALLBACK_NEWS, 3, 3⟩ : UserNewsRec).updatedAt ≤ p.2.updatedAt)
    ∧ setUserAi 2 [("x", ⟨1, ⟨"i", "t"⟩, 10⟩), ("y", ⟨1, ⟨"j", "s"⟩, 2⟩)] "z"
        ⟨2, ⟨"k", "u"⟩, 20⟩
      = mset (mdel [("x", ⟨1, ⟨"i", "t"⟩, 10⟩), ("y", ⟨1, ⟨"j", "s"⟩, 2⟩)] "y") "z"
          ⟨2, ⟨"k", "u"⟩, 20⟩
    ∧ (setUserAi 2 [("x", ⟨1, ⟨"i", "t"⟩, 10⟩), ("y", ⟨1, ⟨"j", "s"⟩, 2⟩)] "z"
        ⟨2, ⟨"k", "u"⟩, 20⟩).length = 2
    ∧ ([("x", (⟨1, ⟨"i", "t"⟩, 10⟩ : AiRec)), ("y", ⟨1, ⟨"j", "s"⟩, 2⟩)]).Forall
        (fun p => (⟨1, ⟨"j", "s"⟩, 2⟩ : AiRec).ts ≤ p.2.ts)
    ∧ (setUserNews 2 [] "m" [] 100).length ≤ 2
    ∧ setUserAi 2 [("p", ⟨1, ⟨"a", "b"⟩, 1⟩)] "p" ⟨9, ⟨"c", "d"⟩, 9⟩
      = mset [("p", ⟨1, ⟨"a", "b"⟩, 1⟩)] "p" ⟨9, ⟨"c", "d"⟩, 9⟩ :=
  lru_eviction_spec 2 100
    [("a", ⟨FALLBACK_NEWS, 5, 5⟩), ("b", ⟨FALLBACK_NEWS, 3, 3⟩)] "c" "b"
    ⟨FALLBACK_NEWS, 3, 3⟩ []
    [("x", ⟨1, ⟨"i", "t"⟩, 10⟩), ("y", ⟨1, ⟨"j", "s"⟩, 2⟩)] "z" "y"
    ⟨1, ⟨"j", "s"⟩, 2⟩ ⟨2, ⟨"k", "u"⟩, 20⟩
    [] "m" [] [("p", ⟨1, ⟨"a", "b"⟩, 1⟩)] "p" ⟨9, ⟨"c", "d"⟩, 9⟩
    (by decide) (by decide) (by decide) (by decide) (by decide) (by rfl) (by decide)
    (by decide) (by decide) (by decide) (by decide) (by rfl) (by decide) (by decide)
    (by decide) (by decide)

/-! ## PersonalizationScorer theorems -/

/-- **C9.** For a `long_term` user holding `["bitcoin"]` and two items
published at the same instant, "Bitcoin ETF approval roadmap announced"
(long-term keywords, no coin-symbol word match) outscores "BTC pumps 10%
in liquidation squeeze" (short-term keywords, +15 coin-symbol score)
strictly — the recency terms cancel and 50 > 15 - 10 — so
`personalizeNews` orders the former first even when it arrives last. -/
theorem personalizeNews_scenario (now p : ℤ) :
    scoreByCoins ⟨"st", "BTC pumps 10% in liquidation squeeze", "u2", "s2", some p⟩
        ["btc"]
      + scoreByInvestorType now
          ⟨"st", "BTC pumps 10% in liquidation squeeze", "u2", "s2", some p⟩
          "long_term"
      < scoreByCoins ⟨"lt", "Bitcoin ETF approval roadmap announced", "u1", "s1", some p⟩
          ["btc"]
        + scoreByInvestorType now
            ⟨"lt", "Bitcoin ETF approval roadmap announced", "u1", "s1", some p⟩
            "long_term"
    ∧ personalizeNews now
        [⟨"st", "BTC pumps 10% in liquidation squeeze", "u2", "s2", some p⟩,
         ⟨"lt", "Bitcoin ETF approval roadmap announced", "u1", "s1", some p⟩]
        ⟨["bitcoin"], "long_term"⟩
      = [⟨"lt", "Bitcoin ETF approval roadmap announced", "u1", "s1", some p⟩,
         ⟨"st", "BTC pumps 10% in liquidation squeeze", "u2", "s2", some p⟩] := by
  have hST : scoreByInvestorType now
      ⟨"st", "BTC pumps 10% in liquidation squeeze", "u2", "s2", some p⟩ "long_term"
      = (max 0 (200 - max 1 (((now - p : ℤ) : ℚ) / 60000)) + 0) - 10 := rfl
  have hLT : scoreByInvestorType now
      ⟨"lt", "Bitcoin ETF approval roadmap announced", "u1", "s1", some p⟩ "long_term"
      = (max 0 (200 - max 1 (((now - p : ℤ) : ℚ) / 60000)) + 50) - 0 := rfl
  have hcST : scoreByCoins
      ⟨"st", "BTC pumps 10% in liquidation squeeze", "u2", "s2", some p⟩ ["btc"]
      = 0 + 10 + 5 := rfl
  have hcLT : scoreByCoins
      ⟨"lt", "Bitcoin ETF approval roadmap announced", "u1", "s1", some p⟩ ["btc"]
      = 0 := rfl
  have hlt : scoreByCoins
        ⟨"st", "BTC pumps 10% in liquidation squeeze", "u2", "s2", some p⟩ ["btc"]
      + scoreByInvestorType now
          ⟨"st", "BTC pumps 10% in liquidation squeeze", "u2", "s2", some p⟩
          "long_term"
      < scoreByCoins
          ⟨"lt", "Bitcoin ETF approval roadmap announced", "u1", "s1", some p⟩ ["btc"]
        + scoreByInvestorType now
            ⟨"lt", "Bitcoin ETF approval roadmap announced", "u1", "s1", some p⟩
            "long_term" := by
    rw [hST, hLT, hcST, hcLT]
    linarith
  refine ⟨hlt, ?_⟩
  have hsyms : (splitOnComma (toCpSymbols ["bitcoin"])).filter (fun s => s != "")
      = ["btc"] := rfl
  simp only [personalizeNews]
  rw [hsyms]
  simp only [List.map_cons, List.map_nil]
  simp only [sortByScoreDesc, List.foldl_cons, List.foldl_nil]
  simp only [insDesc]
  rw [if_neg (not_le.mpr hlt)]
  simp [List.take]
